import Mathlib

/-!
# Verification of the tycho-indexer extraction core

A shallow embedding of the intra-block aggregation engine of
`tycho-indexer` (`src/tycho-indexer/src/extractor/evm/mod.rs`) and of the
Ambient protocol-call dispatcher
(`src/substreams/ethereum-ambient/src/modules/1_map_pool_changes.rs`),
together with proofs about the merge, decode and aggregation operations.

Modelling conventions:
* `H160` / `H256` / `U256` values are modelled as `Nat` (only equality and
  hex formatting of these values is ever used by the embedded code).
* `Bytes` is modelled as `List Nat` (one `Nat` per byte).
* Rust `HashMap`s are modelled as association lists `List (K × V)`;
  lookups match `HashMap` behaviour on key-duplicate-free lists, which is
  an invariant every `HashMap` enjoys by construction.  `HashMap`
  equality (`PartialEq`) is extensional, so statements about maps are
  phrased via `alLookup`.
* Fallible Rust functions return `Except ExtractionError α`; functions
  that may panic (via `unwrap` or an explicit `panic!`) return
  `RunRes ε α`, whose `panics` constructor marks the panic outcome.
-/

/-- Outcome of running a Rust function that may panic in addition to
returning `Result`: `panics` models a Rust panic (e.g. a failed
`unwrap`), `err e` models `Err(e)` and `ok a` models `Ok(a)`. -/
inductive RunRes (ε : Type) (α : Type) where
  | panics : RunRes ε α
  | err : ε → RunRes ε α
  | ok : α → RunRes ε α
  deriving DecidableEq, Repr

deriving instance DecidableEq for Except

/-! ## Association-list maps (model of `std::collections::HashMap`) -/

/-- Lookup in an association list: the value of the first pair whose key
equals `k` (for key-duplicate-free lists, the unique value at `k`). -/
def alLookup {K V : Type} [DecidableEq K] : List (K × V) → K → Option V
  | [], _ => none
  | (k', v) :: rest, k => if k = k' then some v else alLookup rest k

/-- `HashMap::insert`: replace the value of an existing key in place, or
append a fresh binding. -/
def alInsert {K V : Type} [DecidableEq K] : List (K × V) → K → V → List (K × V)
  | [], k, v => [(k, v)]
  | (k', v') :: rest, k, v =>
      if k = k' then (k', v) :: rest else (k', v') :: alInsert rest k v

/-- `HashMap::remove`: drop all bindings of key `k` (for duplicate-free
lists, the single binding). -/
def alRemove {K V : Type} [DecidableEq K] (l : List (K × V)) (k : K) : List (K × V) :=
  l.filter (fun p => p.1 ≠ k)

/-- `HashMap::extend`: insert each binding of `m` into `l`; keys of `m`
overwrite keys of `l`. -/
def alExtend {K V : Type} [DecidableEq K] (l m : List (K × V)) : List (K × V) :=
  m.foldl (fun acc p => alInsert acc p.1 p.2) l

/-- The list of keys of an association list. -/
def alKeys {K V : Type} (l : List (K × V)) : List K :=
  l.map Prod.fst

theorem alLookup_insert {K V : Type} [DecidableEq K] (l : List (K × V)) (k k' : K) (v : V) :
    alLookup (alInsert l k v) k' = if k' = k then some v else alLookup l k' := by
  induction l with
  | nil => by_cases h : k' = k <;> simp [alInsert, alLookup, h]
  | cons p rest ih =>
    obtain ⟨pk, pv⟩ := p
    by_cases hk : k = pk
    · subst hk
      by_cases h : k' = k <;> simp [alInsert, alLookup, h]
    · by_cases h : k' = pk
      · subst h
        have : ¬ k' = k := fun he => hk he.symm
        simp [alInsert, hk, alLookup, this]
      · simp [alInsert, hk, alLookup, h, ih]

theorem alKeys_insert {K V : Type} [DecidableEq K] (l : List (K × V)) (k : K) (v : V) :
    alKeys (alInsert l k v) = if k ∈ alKeys l then alKeys l else alKeys l ++ [k] := by
  induction l with
  | nil => simp [alInsert, alKeys]
  | cons p rest ih =>
    obtain ⟨pk, pv⟩ := p
    by_cases hk : k = pk
    · subst hk; simp [alInsert, alKeys]
    · have hk' : ¬ pk = k := fun he => hk he.symm
      by_cases hm : k ∈ alKeys rest
      · simp only [alKeys] at ih hm
        simp only [alInsert, if_neg hk, alKeys, List.map_cons]
        rw [ih, if_pos hm, if_pos (List.mem_cons_of_mem pk hm)]
      · simp only [alKeys] at ih hm
        simp only [alInsert, if_neg hk, alKeys, List.map_cons]
        rw [ih, if_neg hm,
          if_neg (by rw [List.mem_cons]; rintro (h | h); exact hk h; exact hm h)]
        simp

theorem alKeys_insert_nodup {K V : Type} [DecidableEq K] (l : List (K × V)) (k : K) (v : V)
    (h : (alKeys l).Nodup) : (alKeys (alInsert l k v)).Nodup := by
  rw [alKeys_insert]
  by_cases hm : k ∈ alKeys l
  · simpa [hm]
  · simp [hm, List.nodup_append, h, hm]

theorem alLookup_isSome_iff_mem {K V : Type} [DecidableEq K] (l : List (K × V)) (k : K) :
    (alLookup l k).isSome ↔ k ∈ alKeys l := by
  induction l with
  | nil => simp [alLookup, alKeys]
  | cons p rest ih =>
    obtain ⟨pk, pv⟩ := p
    by_cases h : k = pk <;> simp [alLookup, alKeys, h, ih]

theorem alLookup_extend {K V : Type} [DecidableEq K] (l m : List (K × V)) (k : K)
    (hm : (alKeys m).Nodup) :
    alLookup (alExtend l m) k = (alLookup m k).or (alLookup l k) := by
  induction m generalizing l with
  | nil => simp [alExtend, alLookup]
  | cons p rest ih =>
    obtain ⟨pk, pv⟩ := p
    have hrest : (alKeys rest).Nodup := (List.nodup_cons.mp hm).2
    have hnotin : pk ∉ alKeys rest := (List.nodup_cons.mp hm).1
    show alLookup (alExtend (alInsert l pk pv) rest) k = _
    rw [ih (alInsert l pk pv) hrest]
    by_cases h : k = pk
    · subst h
      have : alLookup rest k = none := by
        cases hl : alLookup rest k with
        | none => rfl
        | some v =>
          exact absurd ((alLookup_isSome_iff_mem rest k).mp (by simp [hl])) hnotin
      simp [alLookup, this, alLookup_insert]
    · simp [alLookup, h, alLookup_insert]

theorem alKeys_extend_nodup {K V : Type} [DecidableEq K] (l m : List (K × V))
    (h : (alKeys l).Nodup) : (alKeys (alExtend l m)).Nodup := by
  induction m generalizing l with
  | nil => simpa [alExtend]
  | cons p rest ih =>
    exact ih (alInsert l p.1 p.2) (alKeys_insert_nodup l p.1 p.2 h)

theorem alLookup_remove {K V : Type} [DecidableEq K] (l : List (K × V)) (k k' : K) :
    alLookup (alRemove l k) k' = if k' = k then none else alLookup l k' := by
  induction l with
  | nil => by_cases h : k' = k <;> simp [alRemove, alLookup, h]
  | cons p rest ih =>
    obtain ⟨pk, pv⟩ := p
    by_cases hk : pk = k
    · subst hk
      have : alRemove ((pk, pv) :: rest) pk = alRemove rest pk := by
        simp [alRemove, List.filter]
      rw [this, ih]
      by_cases h : k' = pk <;> simp [alLookup, h]
    · have : alRemove ((pk, pv) :: rest) k = (pk, pv) :: alRemove rest k := by
        simp [alRemove, List.filter, hk]
      rw [this]
      by_cases h : k' = pk
      · subst h
        have hne : ¬ k' = k := hk
        simp [alLookup, hne]
      · simp [alLookup, h, ih]

theorem alKeys_remove_sublist {K V : Type} [DecidableEq K] (l : List (K × V)) (k : K) :
    (alKeys (alRemove l k)).Sublist (alKeys l) := by
  unfold alKeys alRemove
  exact List.Sublist.map Prod.fst (List.filter_sublist l)

theorem alKeys_remove_nodup {K V : Type} [DecidableEq K] (l : List (K × V)) (k : K)
    (h : (alKeys l).Nodup) : (alKeys (alRemove l k)).Nodup :=
  (alKeys_remove_sublist l k).nodup h

/-! ## Domain scalars and enumerations -/

/-- Hex rendering of a `Nat`, zero-padded to `width` digits, matching the
`LowerHex` output of the fixed-width hash types (`H160`: 40 digits,
`H256`: 64 digits). -/
def hexPad (width : Nat) (n : Nat) : String :=
  let ds := Nat.toDigits 16 n
  ⟨List.replicate (width - ds.length) '0' ++ ds⟩

/-- `Chain` enumeration (`src/tycho-indexer/src/models.rs`). -/
inductive Chain where
  | Ethereum
  | Starknet
  | ZkSync
  deriving DecidableEq, Repr

/-- `ProtocolSystem` enumeration (`src/tycho-indexer/src/models.rs`). -/
inductive ProtocolSystem where
  | Ambient
  deriving DecidableEq, Repr

/-- Modelled from the spec: `ChangeType` (declared in `crate::storage`,
which is not part of the snapshot): the enumeration
{Update, Creation, Deletion}. -/
inductive ChangeType where
  | Update
  | Creation
  | Deletion
  deriving DecidableEq, Repr

/-- Modelled from the spec: `ExtractionError` (declared in
`crate::extractor`, which is not part of the snapshot): the error kinds
of §7 — `DecodeError(reason)`, `MergeError(reason)`, `Empty`,
`IdMismatch`.  The constructors applied by the code in the snapshot are
`DecodeError`, `MergeError` and `Empty`. -/
inductive ExtractionError where
  | DecodeError : String → ExtractionError
  | MergeError : String → ExtractionError
  | Empty : ExtractionError
  | IdMismatch : String → ExtractionError
  deriving DecidableEq, Repr

/-! ## Core entities (`src/tycho-indexer/src/extractor/evm/mod.rs`) -/

/-- `Transaction`: `hash`/`block_hash` are `H256` values, `from`/`to` are
`H160` values (all modelled as `Nat`), `index` is the transaction's
position in the block.  `Transaction::default()` is all zeros / `None`. -/
structure Transaction where
  hash : Nat
  block_hash : Nat
  from_ : Nat
  to_ : Option Nat
  index : Nat
  deriving DecidableEq, Repr

/-- `Transaction::default()` (derived `Default`). -/
def Transaction.default : Transaction :=
  { hash := 0, block_hash := 0, from_ := 0, to_ := none, index := 0 }

/-- `Block` (only carried through by the aggregators). -/
structure Block where
  number : Nat
  hash : Nat
  parent_hash : Nat
  chain : Chain
  ts : Nat
  deriving DecidableEq, Repr

/-- `AccountUpdate`: a per-block condensed delta for one account. -/
structure AccountUpdate where
  address : Nat
  chain : Chain
  slots : List (Nat × Nat)
  balance : Option Nat
  code : Option (List Nat)
  change : ChangeType
  deriving DecidableEq, Repr

/-- `AccountUpdate::merge`: errors when the two updates are for
different addresses; otherwise extends `slots` with `other`'s entries
(other's keys overwrite), and sets `balance`/`code` to other's value
when present (`other.balance.or(self.balance)`), leaving `change`
untouched. -/
def AccountUpdate.merge (self other : AccountUpdate) : Except ExtractionError AccountUpdate :=
  if self.address ≠ other.address then
    .error (.MergeError
      ("Can't merge AccountUpdates from differing identities; Expected 0x" ++
        hexPad 40 self.address ++ ", got 0x" ++ hexPad 40 other.address))
  else
    .ok { self with
          slots := alExtend self.slots other.slots,
          balance := other.balance.or self.balance,
          code := other.code.or self.code }

/-- `AccountUpdateWithTx`: an `AccountUpdate` together with the
originating `Transaction`. -/
structure AccountUpdateWithTx where
  update : AccountUpdate
  tx : Transaction
  deriving DecidableEq, Repr

/-- `AccountUpdateWithTx::merge`: checks, in order, that both updates
are from the same block, from distinct transactions and that `self`'s
transaction index is not above `other`'s; then replaces `tx` by
`other.tx` and merges the inner updates via `AccountUpdate::merge`. -/
def AccountUpdateWithTx.merge (self other : AccountUpdateWithTx) :
    Except ExtractionError AccountUpdateWithTx :=
  if self.tx.block_hash ≠ other.tx.block_hash then
    .error (.MergeError
      ("Can't merge AccountUpdates from different blocks: 0x" ++
        hexPad 64 self.tx.block_hash ++ " != 0x" ++ hexPad 64 other.tx.block_hash))
  else if self.tx.hash = other.tx.hash then
    .error (.MergeError
      ("Can't merge AccountUpdates from the same transaction: 0x" ++
        hexPad 64 self.tx.hash))
  else if self.tx.index > other.tx.index then
    .error (.MergeError
      ("Can't merge AccountUpdates with lower transaction index: " ++
        toString self.tx.index ++ " > " ++ toString other.tx.index))
  else do
    let u ← self.update.merge other.update
    .ok { update := u, tx := other.tx }

/-- `ProtocolComponent`: static description of a tradable unit
(`ContractId` is modelled as the wrapped `String`). -/
structure ProtocolComponent where
  id : String
  protocol_system : ProtocolSystem
  protocol_type_id : String
  chain : Chain
  tokens : List String
  contract_ids : List Nat
  static_attributes : List (String × List Nat)
  change : ChangeType
  deriving DecidableEq, Repr

/-- `ProtocolState`: dynamic per-component state delta. -/
structure ProtocolState where
  component_id : String
  updated_attributes : List (String × List Nat)
  deleted_attributes : List (String × List Nat)
  modify_tx : Nat
  deriving DecidableEq, Repr

/-- `ProtocolState::merge`: errors when the component ids differ;
otherwise takes `other.modify_tx`, removes every key of
`other.deleted_attributes` from `self.updated_attributes` and every key
of `other.updated_attributes` from `self.deleted_attributes`, then
extends both maps with `other`'s entries. -/
def ProtocolState.merge (self other : ProtocolState) : Except ExtractionError ProtocolState :=
  if self.component_id ≠ other.component_id then
    .error (.MergeError
      ("Can't merge ProtocolStates from differing identities; Expected " ++
        self.component_id ++ ", got " ++ other.component_id))
  else
    .ok { component_id := self.component_id,
          updated_attributes :=
            alExtend ((alKeys other.deleted_attributes).foldl alRemove self.updated_attributes)
              other.updated_attributes,
          deleted_attributes :=
            alExtend ((alKeys other.updated_attributes).foldl alRemove self.deleted_attributes)
              other.deleted_attributes,
          modify_tx := other.modify_tx }

/-- `ProtocolStatesWithTx`: protocol states keyed by component id,
together with the originating transaction.
`ProtocolStatesWithTx::default()` has an empty map and
`Transaction::default()`. -/
structure ProtocolStatesWithTx where
  protocol_states : List (String × ProtocolState)
  tx : Transaction
  deriving DecidableEq, Repr

/-- `ProtocolStatesWithTx::default()` (derived `Default`). -/
def ProtocolStatesWithTx.default : ProtocolStatesWithTx :=
  { protocol_states := [], tx := Transaction.default }

/-- The inner loop of `ProtocolStatesWithTx::merge`: for each
`(key, value)` of `other.protocol_states`, merge into the occupied entry
of the accumulator or insert into the vacant one, short-circuiting on
the first `ProtocolState::merge` error. -/
def mergeStatesEntries :
    List (String × ProtocolState) → List (String × ProtocolState) →
    Except ExtractionError (List (String × ProtocolState))
  | acc, [] => .ok acc
  | acc, (k, v) :: rest =>
    match alLookup acc k with
    | some s => do
        let m ← s.merge v
        mergeStatesEntries (alInsert acc k m) rest
    | none => mergeStatesEntries (alInsert acc k v) rest

/-- `ProtocolStatesWithTx::merge`: same three transaction invariants as
`AccountUpdateWithTx::merge` (same block, distinct transaction,
non-decreasing index), then a component-wise entry merge. -/
def ProtocolStatesWithTx.merge (self other : ProtocolStatesWithTx) :
    Except ExtractionError ProtocolStatesWithTx :=
  if self.tx.block_hash ≠ other.tx.block_hash then
    .error (.MergeError
      ("Can't merge ProtocolStates from different blocks: 0x" ++
        hexPad 64 self.tx.block_hash ++ " != 0x" ++ hexPad 64 other.tx.block_hash))
  else if self.tx.hash = other.tx.hash then
    .error (.MergeError
      ("Can't merge ProtocolStates from the same transaction: 0x" ++
        hexPad 64 self.tx.hash))
  else if self.tx.index > other.tx.index then
    .error (.MergeError
      ("Can't merge ProtocolStates with lower transaction index: " ++
        toString self.tx.index ++ " > " ++ toString other.tx.index))
  else do
    let m ← mergeStatesEntries self.protocol_states other.protocol_states
    .ok { protocol_states := m, tx := other.tx }

/-! ## Upstream protobuf messages (`crate::pb::tycho::evm::v1`) -/

/-- The wire `ChangeType` of the upstream schema, which additionally has
the `Unspecified` member. -/
inductive PbChangeType where
  | Unspecified
  | Update
  | Creation
  | Deletion
  deriving DecidableEq, Repr

/-- `impl From<substreams::ChangeType> for ChangeType`: panics on
`Unspecified` (modelled as `none`). -/
def ChangeType.fromPb : PbChangeType → Option ChangeType
  | .Unspecified => none
  | .Update => some .Update
  | .Creation => some .Creation
  | .Deletion => some .Deletion

/-- An upstream `Attribute` message (`name`, `value`, `change`). -/
structure PbAttribute where
  name : String
  value : List Nat
  change : PbChangeType
  deriving DecidableEq, Repr

/-- An upstream `EntityChanges` message. -/
structure EntityChangesMsg where
  component_id : String
  attributes : List PbAttribute
  deriving DecidableEq, Repr

/-- The attribute-classification loop of `ProtocolState::try_from_message`:
`Update`/`Creation` attributes are inserted into the updates map,
`Deletion` attributes into the deletions map; an `Unspecified` change
panics (in `From<substreams::ChangeType>`), modelled as `none`. -/
def classifyAttributes :
    List PbAttribute → List (String × List Nat) → List (String × List Nat) →
    Option (List (String × List Nat) × List (String × List Nat))
  | [], updates, deletions => some (updates, deletions)
  | a :: rest, updates, deletions =>
    match ChangeType.fromPb a.change with
    | none => none
    | some .Update => classifyAttributes rest (alInsert updates a.name a.value) deletions
    | some .Creation => classifyAttributes rest (alInsert updates a.name a.value) deletions
    | some .Deletion => classifyAttributes rest updates (alInsert deletions a.name a.value)

/-- `ProtocolState::try_from_message`: classifies each attribute by its
change kind and takes `modify_tx` from the enclosing transaction.  The
only non-`Ok` outcome is the `Unspecified`-change panic. -/
def ProtocolState.try_from_message (msg : EntityChangesMsg) (tx : Transaction) :
    RunRes ExtractionError ProtocolState :=
  match classifyAttributes msg.attributes [] [] with
  | none => .panics
  | some (updates, deletions) =>
    .ok { component_id := msg.component_id,
          updated_attributes := updates,
          deleted_attributes := deletions,
          modify_tx := tx.hash }

/-! ## TVL change decoding -/

/-- Modelled from the spec: `pad_and_parse_h160`
(`src/tycho-indexer/src/extractor/evm/utils.rs`, not part of the
snapshot): left-pads the input with zeros up to 20 bytes and fails if
the input is longer than 20 bytes. -/
def pad_and_parse_h160 (bytes : List Nat) : Except String (List Nat) :=
  if bytes.length > 20 then
    .error ("Tried to decode an address from bytes of length " ++ toString bytes.length)
  else
    .ok (List.replicate (20 - bytes.length) 0 ++ bytes)

/-- `u64::from_le_bytes` on an 8-byte little-endian buffer. -/
def u64FromLeBytes (bytes : List Nat) : Nat :=
  bytes.reverse.foldl (fun acc b => acc * 256 + b) 0

/-- UTF-8 decoding of a byte sequence into the list of its Unicode
scalar values, rejecting (as `String::from_utf8` does) truncated
sequences, stray continuation bytes, overlong encodings, surrogate code
points and code points above `U+10FFFF`. -/
def utf8Decode : List Nat → Option (List Nat)
  | [] => some []
  | b :: rest =>
    if b < 0x80 then
      (utf8Decode rest).map (b :: ·)
    else if b < 0xC2 then
      none
    else if b < 0xE0 then
      match rest with
      | b1 :: rest' =>
        if 0x80 ≤ b1 ∧ b1 < 0xC0 then
          (utf8Decode rest').map (((b - 0xC0) * 0x40 + (b1 - 0x80)) :: ·)
        else none
      | [] => none
    else if b < 0xF0 then
      match rest with
      | b1 :: b2 :: rest' =>
        if (0x80 ≤ b1 ∧ b1 < 0xC0) ∧ (0x80 ≤ b2 ∧ b2 < 0xC0) ∧
            (b = 0xE0 → 0xA0 ≤ b1) ∧ (b = 0xED → b1 < 0xA0) then
          (utf8Decode rest').map
            (((b - 0xE0) * 0x1000 + (b1 - 0x80) * 0x40 + (b2 - 0x80)) :: ·)
        else none
      | _ => none
    else if b < 0xF5 then
      match rest with
      | b1 :: b2 :: b3 :: rest' =>
        if (0x80 ≤ b1 ∧ b1 < 0xC0) ∧ (0x80 ≤ b2 ∧ b2 < 0xC0) ∧ (0x80 ≤ b3 ∧ b3 < 0xC0) ∧
            (b = 0xF0 → 0x90 ≤ b1) ∧ (b = 0xF4 → b1 < 0x90) then
          (utf8Decode rest').map
            (((b - 0xF0) * 0x40000 + (b1 - 0x80) * 0x1000 + (b2 - 0x80) * 0x40 + (b3 - 0x80)) :: ·)
        else none
      | _ => none
    else none

/-- `String::from_utf8`: the decoded string, or `none` on invalid
UTF-8. -/
def stringFromUtf8 (bytes : List Nat) : Option String :=
  (utf8Decode bytes).map (fun cps => ⟨cps.map Char.ofNat⟩)

/-- An upstream `BalanceChange` message. -/
structure BalanceChangeMsg where
  token : List Nat
  balance : List Nat
  component_id : List Nat
  deriving DecidableEq, Repr

/-- `TvlChange`.  `new_balance` is an `f64` built with `f64::from_bits`
from the little-endian `u64` read of the 8 balance bytes; since the code
performs no arithmetic on it, it is modelled by its 64-bit pattern. -/
structure TvlChange where
  token : List Nat
  new_balance : Nat
  modify_tx : Nat
  component_id : String
  deriving DecidableEq, Repr

/-- `TvlChange::try_from_message`: decodes `token` via
`pad_and_parse_h160` (a failure becomes `DecodeError`), then reads
`new_balance` from `msg.balance.try_into().unwrap()` — which panics
unless `balance` is exactly 8 bytes — then takes the enclosing
transaction's hash and decodes `component_id` as UTF-8 (a failure
becomes `DecodeError`).  Field initializers run in declaration order, so
a token failure precedes the balance panic, which precedes the UTF-8
check. -/
def TvlChange.try_from_message (msg : BalanceChangeMsg) (tx : Transaction) :
    RunRes ExtractionError TvlChange :=
  match pad_and_parse_h160 msg.token with
  | .error e => .err (.DecodeError e)
  | .ok token =>
    if msg.balance.length = 8 then
      match stringFromUtf8 msg.component_id with
      | none => .err (.DecodeError "invalid utf-8")
      | some cid =>
        .ok { token := token,
              new_balance := u64FromLeBytes msg.balance,
              modify_tx := tx.hash,
              component_id := cid }
    else
      .panics

/-! ## Block aggregators -/

/-- `BlockContractChanges`: per-transaction account updates plus
components for a single block. -/
structure BlockContractChanges where
  extractor : String
  chain : Chain
  block : Block
  tx_updates : List AccountUpdateWithTx
  protocol_components : List ProtocolComponent
  tvl_changes : List TvlChange
  deriving DecidableEq, Repr

/-- `BlockAccountChanges`: one condensed update per account. -/
structure BlockAccountChanges where
  extractor : String
  chain : Chain
  block : Block
  account_updates : List (Nat × AccountUpdate)
  new_protocol_components : List ProtocolComponent
  deleted_protocol_components : List ProtocolComponent
  tvl_changes : List TvlChange
  deriving DecidableEq, Repr

/-- The loop of `BlockContractChanges::aggregate_updates`: for each
update, merge into the occupied entry at its address or insert into the
vacant one. -/
def aggregateAccountLoop :
    List (Nat × AccountUpdateWithTx) → List AccountUpdateWithTx →
    Except ExtractionError (List (Nat × AccountUpdateWithTx))
  | acc, [] => .ok acc
  | acc, u :: rest =>
    match alLookup acc u.update.address with
    | some e => do
        let m ← e.merge u
        aggregateAccountLoop (alInsert acc u.update.address m) rest
    | none => aggregateAccountLoop (alInsert acc u.update.address u) rest

/-- `BlockContractChanges::aggregate_updates`: merges `tx_updates` into
one `AccountUpdate` per address and wraps the result in a
`BlockAccountChanges` with the block's protocol components, no deleted
components and no tvl changes.  Merge failures propagate as `Err`. -/
def BlockContractChanges.aggregate_updates (self : BlockContractChanges) :
    Except ExtractionError BlockAccountChanges := do
  let acc ← aggregateAccountLoop [] self.tx_updates
  .ok { extractor := self.extractor,
        chain := self.chain,
        block := self.block,
        account_updates := acc.map (fun p => (p.1, p.2.update)),
        new_protocol_components := self.protocol_components,
        deleted_protocol_components := [],
        tvl_changes := [] }

/-- `BlockEntityChanges`: per-transaction protocol states plus new
components for a single block. -/
structure BlockEntityChanges where
  extractor : String
  chain : Chain
  block : Block
  state_updates : List ProtocolStatesWithTx
  new_protocol_components : List (String × ProtocolComponent)
  deriving DecidableEq, Repr

/-- `BlockEntityChangesResult`: one final `ProtocolState` per
component. -/
structure BlockEntityChangesResult where
  extractor : String
  chain : Chain
  block : Block
  state_updates : List (String × ProtocolState)
  new_protocol_components : List (String × ProtocolComponent)
  deriving DecidableEq, Repr

/-- The `try_fold` of `BlockEntityChanges::aggregate_updates`: merge the
sequence into the accumulator, short-circuiting on the first error. -/
def entityTryFold :
    ProtocolStatesWithTx → List ProtocolStatesWithTx →
    Except ExtractionError ProtocolStatesWithTx
  | acc, [] => .ok acc
  | acc, u :: rest => do
    let m ← acc.merge u
    entityTryFold m rest

/-- `BlockEntityChanges::aggregate_updates`: folds `state_updates` via
`ProtocolStatesWithTx::merge` starting from
`ProtocolStatesWithTx::default()` and calls `.unwrap()` on the fold
result, so a merge error panics instead of being returned. -/
def BlockEntityChanges.aggregate_updates (self : BlockEntityChanges) :
    RunRes ExtractionError BlockEntityChangesResult :=
  match entityTryFold ProtocolStatesWithTx.default self.state_updates with
  | .error _ => .panics
  | .ok agg =>
    .ok { extractor := self.extractor,
          chain := self.chain,
          block := self.block,
          state_updates := agg.protocol_states,
          new_protocol_components := self.new_protocol_components }

/-! ## Ambient protocol-call dispatcher
(`src/substreams/ethereum-ambient/src/modules/1_map_pool_changes.rs`)

The entry-point constants and the per-selector decoders live in
`crate::contracts::*`, which is not part of the snapshot; the dispatcher
is therefore modelled relative to an environment `AmbientEnv` supplying
them as abstract values/functions, and the theorems quantify over every
environment. -/

/-- A call of a transaction's call tree, as consumed by the dispatcher.
The `storage_changes` field is omitted: the source collects and sorts
the main-contract storage changes per transaction but never uses them in
the emitted `BlockPoolChanges`. -/
structure CallMsg where
  address : List Nat
  input : List Nat
  state_reverted : Bool
  index : Nat
  deriving DecidableEq, Repr

/-- A transaction of the upstream block trace: its ordered calls. -/
structure TraceTx where
  calls : List CallMsg
  deriving DecidableEq, Repr

/-- The upstream block trace: its ordered transactions. -/
structure TraceBlock where
  transactions : List TraceTx
  deriving DecidableEq, Repr

/-- An emitted `BalanceDelta`. -/
structure BalanceDelta where
  pool_hash : List Nat
  base_token_delta : List Nat
  quote_token_delta : List Nat
  ordinal : Nat
  deriving DecidableEq, Repr

/-- The dispatcher's output: detected pool components (abstract type
`γ`) and emitted balance deltas. -/
structure BlockPoolChanges (γ : Type) where
  protocol_components : List γ
  balance_deltas : List BalanceDelta
  deriving DecidableEq, Repr

/-- The compile-time entry-point table and decoders of the Ambient
dispatcher: contract addresses (20-byte), 4-byte function selectors, the
decoder for each `(contract, selector)` pair, and the signed-flow
serializer `from_u256_to_vec`. -/
structure AmbientEnv (γ : Type) where
  ambientContract : List Nat
  hotproxyContract : List Nat
  micropathsContract : List Nat
  warmpathContract : List Nat
  knockoutContract : List Nat
  swapSig : List Nat
  userCmdSig : List Nat
  userCmdHotproxySig : List Nat
  sweepSwapSig : List Nat
  mintRangeSig : List Nat
  mintAmbientSig : List Nat
  burnRangeSig : List Nat
  burnAmbientSig : List Nat
  userCmdWarmpathSig : List Nat
  userCmdKnockoutSig : List Nat
  decode_pool_init : CallMsg → Except String (Option γ)
  decode_direct_swap_call : CallMsg → Except String (List Nat × Int × Int)
  decode_direct_swap_hotproxy_call : CallMsg → Except String (List Nat × Int × Int)
  decode_sweep_swap_call : CallMsg → Except String (List Nat × Int × Int)
  decode_mint_range_call : CallMsg → Except String (List Nat × Int × Int)
  decode_mint_ambient_call : CallMsg → Except String (List Nat × Int × Int)
  decode_burn_range_call : CallMsg → Except String (List Nat × Int × Int)
  decode_burn_ambient_call : CallMsg → Except String (List Nat × Int × Int)
  decode_knockout_call : CallMsg → Except String (List Nat × Int × Int)
  decode_warm_path_user_cmd_call : CallMsg → Except String (Option (List Nat × Int × Int))
  from_u256_to_vec : Int → List Nat

/-- The TVL-dispatch table of `map_pool_changes`: the `(address,
selector)` match, arms in source order.  `address` is the call's address
(already checked to be 20 bytes); a matching decoder's error propagates;
an unmatched pair produces no flow. -/
def dispatchTvl {γ : Type} (env : AmbientEnv γ) (call : CallMsg) (selector : List Nat) :
    Except String (Option (List Nat × Int × Int)) :=
  if call.address = env.ambientContract ∧ selector = env.swapSig then
    (env.decode_direct_swap_call call).map some
  else if call.address = env.hotproxyContract ∧ selector = env.userCmdHotproxySig then
    (env.decode_direct_swap_hotproxy_call call).map some
  else if call.address = env.micropathsContract ∧ selector = env.sweepSwapSig then
    (env.decode_sweep_swap_call call).map some
  else if call.address = env.warmpathContract ∧ selector = env.userCmdWarmpathSig then
    env.decode_warm_path_user_cmd_call call
  else if call.address = env.micropathsContract ∧ selector = env.mintRangeSig then
    (env.decode_mint_range_call call).map some
  else if call.address = env.micropathsContract ∧ selector = env.mintAmbientSig then
    (env.decode_mint_ambient_call call).map some
  else if call.address = env.micropathsContract ∧ selector = env.burnRangeSig then
    (env.decode_burn_range_call call).map some
  else if call.address = env.micropathsContract ∧ selector = env.burnAmbientSig then
    (env.decode_burn_ambient_call call).map some
  else if call.address = env.knockoutContract ∧ selector = env.userCmdKnockoutSig then
    (env.decode_knockout_call call).map some
  else
    .ok none

/-- The per-call body of `map_pool_changes`, iterated over one
transaction's non-reverted calls with the accumulated components and
deltas: skips calls with fewer than 4 input bytes, panics when a
processed call's address is not 20 bytes (`try_into().unwrap()`), pushes
the component detected by `decode_pool_init` for a `USER_CMD` call on
the main contract, and pushes a `BalanceDelta` with
`ordinal = call.index` for each flow produced by the dispatch table. -/
def mapPoolCalls {γ : Type} (env : AmbientEnv γ) :
    List CallMsg → List γ → List BalanceDelta →
    RunRes String (List γ × List BalanceDelta)
  | [], pcs, bds => .ok (pcs, bds)
  | call :: rest, pcs, bds =>
    if call.input.length < 4 then
      mapPoolCalls env rest pcs bds
    else if call.address.length ≠ 20 then
      .panics
    else
      let selector := call.input.take 4
      let initRes : Except String (Option γ) :=
        if call.address = env.ambientContract ∧ selector = env.userCmdSig then
          env.decode_pool_init call
        else .ok none
      match initRes with
      | .error e => .err e
      | .ok initOpt =>
        let pcs' := match initOpt with
          | some pc => pcs ++ [pc]
          | none => pcs
        match dispatchTvl env call selector with
        | .error e => .err e
        | .ok none => mapPoolCalls env rest pcs' bds
        | .ok (some (pool_hash, base_flow, quote_flow)) =>
          mapPoolCalls env rest pcs'
            (bds ++ [{ pool_hash := pool_hash,
                       base_token_delta := env.from_u256_to_vec base_flow,
                       quote_token_delta := env.from_u256_to_vec quote_flow,
                       ordinal := call.index }])

/-- The outer transaction loop of `map_pool_changes`: per transaction,
process the calls that were not reverted. -/
def mapPoolTxs {γ : Type} (env : AmbientEnv γ) :
    List TraceTx → List γ → List BalanceDelta →
    RunRes String (List γ × List BalanceDelta)
  | [], pcs, bds => .ok (pcs, bds)
  | tx :: rest, pcs, bds =>
    match mapPoolCalls env (tx.calls.filter (fun c => !c.state_reverted)) pcs bds with
    | .panics => .panics
    | .err e => .err e
    | .ok (pcs', bds') => mapPoolTxs env rest pcs' bds'

/-- `map_pool_changes`: traverse the block's transactions in order and
their non-reverted calls in call-tree order, emitting detected pool
components and balance deltas. -/
def map_pool_changes {γ : Type} (env : AmbientEnv γ) (block : TraceBlock) :
    RunRes String (BlockPoolChanges γ) :=
  match mapPoolTxs env block.transactions [] [] with
  | .panics => .panics
  | .err e => .err e
  | .ok (pcs, bds) => .ok { protocol_components := pcs, balance_deltas := bds }

/-! ## Claim C1: error conditions of `AccountUpdateWithTx::merge` -/

/-- A pair of account updates on the same block, with distinct
transaction hashes and ascending indices, but for two different account
addresses. -/
def c1Left : AccountUpdateWithTx :=
  { update := { address := 1, chain := .Ethereum, slots := [], balance := none,
                code := none, change := .Update },
    tx := { hash := 1, block_hash := 0, from_ := 0, to_ := none, index := 1 } }

/-- See `c1Left`. -/
def c1Right : AccountUpdateWithTx :=
  { update := { address := 2, chain := .Ethereum, slots := [], balance := none,
                code := none, change := .Update },
    tx := { hash := 2, block_hash := 0, from_ := 0, to_ := none, index := 2 } }

set_option maxRecDepth 4000 in
/-- **C1, counterexample.**  The two updates `c1Left`/`c1Right` satisfy
all three transaction invariants (same block hash, distinct transaction
hashes, ascending indices), yet `merge` returns a `MergeError`, because
the updates carry different account addresses — so a `MergeError` does
*not* occur only when one of the three invariants is violated. -/
theorem accountMerge_mergeError_without_invariant_violation :
    c1Left.tx.block_hash = c1Right.tx.block_hash ∧
    c1Left.tx.hash ≠ c1Right.tx.hash ∧
    c1Left.tx.index ≤ c1Right.tx.index ∧
    c1Left.merge c1Right = .error (.MergeError
      ("Can't merge AccountUpdates from differing identities; Expected " ++
        "0x0000000000000000000000000000000000000001, got " ++
        "0x0000000000000000000000000000000000000002")) := by
  refine ⟨rfl, by decide, by decide, by decide⟩

/-- **C1 (amended).**  `AccountUpdateWithTx::merge` returns a
`MergeError` iff the block hashes differ, the transaction hashes are
equal, `self.tx.index > other.tx.index`, **or the two updates'
addresses differ**; on the same block with distinct transaction hashes,
indices 10 and 1 produce exactly
`MergeError("Can't merge AccountUpdates with lower transaction index: 10 > 1")`;
and equal indices with distinct hashes on a common block and a common
address are accepted. -/
theorem accountUpdateWithTx_merge_mergeError_iff (a b : AccountUpdateWithTx) :
    ((∃ msg, a.merge b = .error (.MergeError msg)) ↔
      (a.tx.block_hash ≠ b.tx.block_hash ∨ a.tx.hash = b.tx.hash ∨
        b.tx.index < a.tx.index ∨ a.update.address ≠ b.update.address)) ∧
    (a.tx.block_hash = b.tx.block_hash → a.tx.hash ≠ b.tx.hash →
      a.tx.index = 10 → b.tx.index = 1 →
      a.merge b = .error (.MergeError
        "Can't merge AccountUpdates with lower transaction index: 10 > 1")) ∧
    (a.tx.block_hash = b.tx.block_hash → a.tx.hash ≠ b.tx.hash →
      a.tx.index = b.tx.index → a.update.address = b.update.address →
      ∃ r, a.merge b = .ok r) := by
  refine ⟨?_, ?_, ?_⟩
  · by_cases h1 : a.tx.block_hash = b.tx.block_hash <;>
      by_cases h2 : a.tx.hash = b.tx.hash <;>
      by_cases h3 : b.tx.index < a.tx.index <;>
      by_cases h4 : a.update.address = b.update.address <;>
      simp [AccountUpdateWithTx.merge, AccountUpdate.merge, h1, h2, h4,
        show (a.tx.index > b.tx.index) = (b.tx.index < a.tx.index) from rfl, h3,
        Except.bind, Bind.bind]
  · intro h1 h2 h3 h4
    unfold AccountUpdateWithTx.merge
    rw [if_neg (by simp [h1]), if_neg h2, if_pos (by rw [h3, h4]; decide), h3, h4]
    decide
  · intro h1 h2 h3 h4
    unfold AccountUpdateWithTx.merge
    rw [if_neg (by simp [h1]), if_neg h2, if_neg (by rw [h3]; simp)]
    unfold AccountUpdate.merge
    rw [if_neg (by simp [h4])]
    exact ⟨_, rfl⟩

/-- Witness for C1: the amended theorem applied to a concrete pair with
indices 10 and 1 on a common block, distinct hashes. -/
theorem accountUpdateWithTx_merge_mergeError_iff_witness :
    ({ update := { address := 5, chain := .Ethereum, slots := [], balance := none,
                   code := none, change := .Update },
       tx := { hash := 3, block_hash := 7, from_ := 0, to_ := none, index := 10 } }
        : AccountUpdateWithTx).merge
      { update := { address := 5, chain := .Ethereum, slots := [], balance := none,
                    code := none, change := .Update },
        tx := { hash := 4, block_hash := 7, from_ := 0, to_ := none, index := 1 } } =
    .error (.MergeError
      "Can't merge AccountUpdates with lower transaction index: 10 > 1") :=
  (accountUpdateWithTx_merge_mergeError_iff _ _).2.1 rfl (by decide) rfl rfl

/-! ## Claim C2: result of a successful `AccountUpdateWithTx::merge` -/

/-- **C2.**  Whenever `AccountUpdateWithTx::merge` succeeds on two
updates with a common address (same block, distinct transactions,
non-decreasing index), the result's `slots` are `self`'s slots extended
by `other`'s entries with `other`'s keys overwriting, `balance` and
`code` are `other`'s when set and otherwise `self`'s, `change` is
retained from `self`, and `tx` is replaced by `other.tx`.  The slot map
of the `other` operand is key-duplicate-free, as every Rust `HashMap`
is. -/
theorem accountUpdateWithTx_merge_success_fields (a b : AccountUpdateWithTx)
    (haddr : a.update.address = b.update.address)
    (hblock : a.tx.block_hash = b.tx.block_hash)
    (hhash : a.tx.hash ≠ b.tx.hash)
    (hidx : a.tx.index ≤ b.tx.index)
    (hnodup : (alKeys b.update.slots).Nodup) :
    ∃ r, a.merge b = .ok r ∧
      (∀ k, alLookup r.update.slots k =
        (alLookup b.update.slots k).or (alLookup a.update.slots k)) ∧
      r.update.balance = b.update.balance.or a.update.balance ∧
      r.update.code = b.update.code.or a.update.code ∧
      r.update.change = a.update.change ∧
      r.update.address = a.update.address ∧
      r.update.chain = a.update.chain ∧
      r.tx = b.tx := by
  have hmerge : a.merge b = .ok
      { update := { a.update with
                    slots := alExtend a.update.slots b.update.slots,
                    balance := b.update.balance.or a.update.balance,
                    code := b.update.code.or a.update.code },
        tx := b.tx } := by
    unfold AccountUpdateWithTx.merge
    rw [if_neg (by simp [hblock]), if_neg hhash, if_neg (by simpa using hidx)]
    unfold AccountUpdate.merge
    rw [if_neg (by simp [haddr])]
    rfl
  refine ⟨_, hmerge, ?_, rfl, rfl, rfl, rfl, rfl, rfl⟩
  intro k
  exact alLookup_extend a.update.slots b.update.slots k hnodup

/-- Witness for C2: the theorem applied to the updates of scenario S1
(first sets the balance, second sets two storage slots), together with
the evaluated conclusions at the merged result. -/
theorem accountUpdateWithTx_merge_success_fields_witness :
    (∃ r, ({ update := { address := 1, chain := .Ethereum, slots := [],
                         balance := some 10000, code := none, change := .Update },
             tx := { hash := 3, block_hash := 7, from_ := 0, to_ := none, index := 10 } }
              : AccountUpdateWithTx).merge
          { update := { address := 1, chain := .Ethereum, slots := [(0, 1), (1, 2)],
                        balance := none, code := none, change := .Update },
            tx := { hash := 4, block_hash := 7, from_ := 0, to_ := none, index := 11 } } =
          .ok r ∧
        (∀ k, alLookup r.update.slots k =
          (alLookup [(0, 1), (1, 2)] k).or (alLookup [] k)) ∧
        r.update.balance = Option.or none (some 10000) ∧
        r.update.code = Option.or none none ∧
        r.update.change = .Update ∧
        r.update.address = 1 ∧
        r.update.chain = .Ethereum ∧
        r.tx = { hash := 4, block_hash := 7, from_ := 0, to_ := none, index := 11 }) :=
  accountUpdateWithTx_merge_success_fields _ _ rfl rfl (by decide) (by decide) (by decide)

/-! ## Claim C3: `ProtocolState::merge` -/

theorem alLookup_foldl_remove {K V : Type} [DecidableEq K] (ks : List K)
    (l : List (K × V)) (k : K) :
    alLookup (ks.foldl alRemove l) k = if k ∈ ks then none else alLookup l k := by
  induction ks generalizing l with
  | nil => simp
  | cons k0 rest ih =>
    show alLookup (rest.foldl alRemove (alRemove l k0)) k = _
    rw [ih (alRemove l k0)]
    by_cases hm : k ∈ rest
    · simp [hm]
    · by_cases h0 : k = k0 <;> simp [hm, h0, alLookup_remove]

theorem alKeys_foldl_remove_nodup {K V : Type} [DecidableEq K] (ks : List K)
    (l : List (K × V)) (h : (alKeys l).Nodup) :
    (alKeys (ks.foldl alRemove l)).Nodup := by
  induction ks generalizing l with
  | nil => simpa
  | cons k0 rest ih => exact ih (alRemove l k0) (alKeys_remove_nodup l k0 h)

/-- The value `ProtocolState::merge` computes when the component ids
agree (factored out for reuse in statements). -/
def protocolStateMergeOk (self other : ProtocolState) : ProtocolState :=
  { component_id := self.component_id,
    updated_attributes :=
      alExtend ((alKeys other.deleted_attributes).foldl alRemove self.updated_attributes)
        other.updated_attributes,
    deleted_attributes :=
      alExtend ((alKeys other.updated_attributes).foldl alRemove self.deleted_attributes)
        other.deleted_attributes,
    modify_tx := other.modify_tx }

theorem protocolState_merge_eq (s o : ProtocolState) :
    s.merge o = if s.component_id ≠ o.component_id then
      .error (.MergeError
        ("Can't merge ProtocolStates from differing identities; Expected " ++
          s.component_id ++ ", got " ++ o.component_id))
    else .ok (protocolStateMergeOk s o) := rfl

/-- **C3.**  `ProtocolState::merge` returns a `MergeError` iff the two
component ids differ; on success the result keeps `self`'s component
id, takes `other.modify_tx`, its `updated_attributes` are
`self.updated_attributes` minus the keys of `other.deleted_attributes`
extended by `other.updated_attributes`, and its `deleted_attributes`
are `self.deleted_attributes` minus the keys of
`other.updated_attributes` extended by `other.deleted_attributes`
(attribute maps stated pointwise;  `other`'s maps are
key-duplicate-free, as every Rust `HashMap` is). -/
theorem protocolState_merge_spec (s o : ProtocolState)
    (hupd : (alKeys o.updated_attributes).Nodup)
    (hdel : (alKeys o.deleted_attributes).Nodup) :
    ((∃ msg, s.merge o = .error (.MergeError msg)) ↔ s.component_id ≠ o.component_id) ∧
    (∀ r, s.merge o = .ok r →
      r.component_id = s.component_id ∧
      r.modify_tx = o.modify_tx ∧
      (∀ k, alLookup r.updated_attributes k =
        (alLookup o.updated_attributes k).or
          (if k ∈ alKeys o.deleted_attributes then none
           else alLookup s.updated_attributes k)) ∧
      (∀ k, alLookup r.deleted_attributes k =
        (alLookup o.deleted_attributes k).or
          (if k ∈ alKeys o.updated_attributes then none
           else alLookup s.deleted_attributes k))) := by
  constructor
  · by_cases hcid : s.component_id = o.component_id <;>
      simp [protocolState_merge_eq, hcid]
  · intro r hr
    rw [protocolState_merge_eq] at hr
    by_cases hcid : s.component_id = o.component_id
    · rw [if_neg (by simp [hcid])] at hr
      cases hr
      refine ⟨rfl, rfl, ?_, ?_⟩
      · intro k
        rw [show (protocolStateMergeOk s o).updated_attributes =
            alExtend ((alKeys o.deleted_attributes).foldl alRemove s.updated_attributes)
              o.updated_attributes from rfl,
          alLookup_extend _ _ _ hupd, alLookup_foldl_remove]
      · intro k
        rw [show (protocolStateMergeOk s o).deleted_attributes =
            alExtend ((alKeys o.updated_attributes).foldl alRemove s.deleted_attributes)
              o.deleted_attributes from rfl,
          alLookup_extend _ _ _ hdel, alLookup_foldl_remove]
    · rw [if_pos hcid] at hr
      exact absurd hr (by simp)

/-- Scenario S4, first state: `updated = {reserve1: 1000, reserve2: 500,
static: 1, to_be_removed: 1}`, `deleted = {to_add_back: 0}` (attribute
values as byte strings). -/
def s4State1 : ProtocolState :=
  { component_id := "State1",
    updated_attributes :=
      [("reserve1", [3, 232]), ("reserve2", [1, 244]), ("static", [1]),
       ("to_be_removed", [1])],
    deleted_attributes := [("to_add_back", [0])],
    modify_tx := 0 }

/-- Scenario S4, second state: `updated = {reserve1: 900, reserve2: 550,
new: 1, to_add_back: 200}`, `deleted = {to_be_removed: 0}`. -/
def s4State2 : ProtocolState :=
  { component_id := "State1",
    updated_attributes :=
      [("reserve1", [3, 132]), ("reserve2", [2, 38]), ("new", [1]),
       ("to_add_back", [200])],
    deleted_attributes := [("to_be_removed", [0])],
    modify_tx := 1 }

/-- Witness for C3: the theorem applied to scenario S4, whose merge
result is checked against the expected
`updated = {reserve1: 900, reserve2: 550, static: 1, new: 1,
to_add_back: 200}`, `deleted = {to_be_removed: 0}`,
`modify_tx = other's`. -/
theorem protocolState_merge_spec_witness :
    ((alKeys s4State2.updated_attributes).Nodup ∧
      (alKeys s4State2.deleted_attributes).Nodup) ∧
    (s4State1.merge s4State2 = .ok (protocolStateMergeOk s4State1 s4State2) ∧
      alLookup (protocolStateMergeOk s4State1 s4State2).updated_attributes "reserve1"
        = some [3, 132] ∧
      alLookup (protocolStateMergeOk s4State1 s4State2).updated_attributes "reserve2"
        = some [2, 38] ∧
      alLookup (protocolStateMergeOk s4State1 s4State2).updated_attributes "static"
        = some [1] ∧
      alLookup (protocolStateMergeOk s4State1 s4State2).updated_attributes "new"
        = some [1] ∧
      alLookup (protocolStateMergeOk s4State1 s4State2).updated_attributes "to_add_back"
        = some [200] ∧
      alLookup (protocolStateMergeOk s4State1 s4State2).updated_attributes "to_be_removed"
        = none ∧
      alLookup (protocolStateMergeOk s4State1 s4State2).deleted_attributes "to_be_removed"
        = some [0] ∧
      alLookup (protocolStateMergeOk s4State1 s4State2).deleted_attributes "to_add_back"
        = none) ∧
    ((protocolStateMergeOk s4State1 s4State2).component_id = s4State1.component_id ∧
      (protocolStateMergeOk s4State1 s4State2).modify_tx = s4State2.modify_tx) :=
  ⟨⟨by decide, by decide⟩,
   ⟨by decide, by decide, by decide, by decide, by decide, by decide, by decide,
    by decide, by decide⟩,
   ⟨((protocolState_merge_spec s4State1 s4State2 (by decide) (by decide)).2
      (protocolStateMergeOk s4State1 s4State2) (by decide)).1,
    ((protocolState_merge_spec s4State1 s4State2 (by decide) (by decide)).2
      (protocolStateMergeOk s4State1 s4State2) (by decide)).2.1⟩⟩

/-! ## Claim C4: disjointness of updated/deleted attribute key-sets -/

/-- The key-sets of a protocol state's updated and deleted attribute
maps are disjoint. -/
def attrKeysDisjoint (s : ProtocolState) : Prop :=
  ∀ k ∈ alKeys s.updated_attributes, k ∉ alKeys s.deleted_attributes

instance (s : ProtocolState) : Decidable (attrKeysDisjoint s) :=
  List.decidableBAll _ _

theorem mem_alKeys_insert {K V : Type} [DecidableEq K] (l : List (K × V)) (k k' : K) (v : V) :
    k' ∈ alKeys (alInsert l k v) ↔ k' ∈ alKeys l ∨ k' = k := by
  rw [alKeys_insert]
  by_cases hm : k ∈ alKeys l
  · simp only [if_pos hm]
    constructor
    · exact Or.inl
    · rintro (h | h)
      · exact h
      · exact h ▸ hm
  · simp [if_neg hm]

/-- **C4, counterexample.**  An `EntityChanges` message that carries the
same attribute name once with an `Update` change and once with a
`Deletion` change decodes successfully via
`ProtocolState::try_from_message` into a state whose updated and deleted
key-sets both contain that name — the disjointness invariant does not
hold for every state `try_from_message` produces. -/
theorem protocolState_tryFromMessage_overlapping_keys :
    ProtocolState.try_from_message
      { component_id := "c",
        attributes := [{ name := "a", value := [1], change := .Update },
                       { name := "a", value := [2], change := .Deletion }] }
      Transaction.default
      = .ok { component_id := "c", updated_attributes := [("a", [1])],
              deleted_attributes := [("a", [2])], modify_tx := 0 } ∧
    ¬ attrKeysDisjoint
        { component_id := "c", updated_attributes := [("a", [1])],
          deleted_attributes := [("a", [2])], modify_tx := 0 } := by
  exact ⟨by decide, by decide⟩

theorem classifyAttributes_disjoint (attrs : List PbAttribute)
    (us ds us' ds' : List (String × List Nat))
    (hnames : (attrs.map PbAttribute.name).Nodup)
    (hfresh : ∀ a ∈ attrs, a.name ∉ alKeys us ∧ a.name ∉ alKeys ds)
    (hdisj : ∀ k ∈ alKeys us, k ∉ alKeys ds)
    (h : classifyAttributes attrs us ds = some (us', ds')) :
    ∀ k ∈ alKeys us', k ∉ alKeys ds' := by
  induction attrs generalizing us ds with
  | nil =>
    simp only [classifyAttributes, Option.some.injEq, Prod.mk.injEq] at h
    exact h.1 ▸ h.2 ▸ hdisj
  | cons a rest ih =>
    have hnames' : (rest.map PbAttribute.name).Nodup := (List.nodup_cons.mp hnames).2
    have hhead : a.name ∉ rest.map PbAttribute.name := (List.nodup_cons.mp hnames).1
    simp only [classifyAttributes] at h
    cases hc : ChangeType.fromPb a.change with
    | none => rw [hc] at h; exact absurd h (by simp)
    | some ct =>
      rw [hc] at h
      cases ct with
      | Update | Creation =>
        refine ih (alInsert us a.name a.value) ds hnames' ?_ ?_ h
        · intro b hb
          have hbname : b.name ≠ a.name := by
            intro he
            exact hhead (he ▸ List.mem_map_of_mem PbAttribute.name hb)
          refine ⟨?_, (hfresh b (List.mem_cons_of_mem a hb)).2⟩
          rw [mem_alKeys_insert]
          rintro (hm | hm)
          · exact (hfresh b (List.mem_cons_of_mem a hb)).1 hm
          · exact hbname hm
        · intro k hk
          rw [mem_alKeys_insert] at hk
          rcases hk with hk | hk
          · exact hdisj k hk
          · exact hk ▸ (hfresh a (List.mem_cons_self a rest)).2
      | Deletion =>
        refine ih us (alInsert ds a.name a.value) hnames' ?_ ?_ h
        · intro b hb
          have hbname : b.name ≠ a.name := by
            intro he
            exact hhead (he ▸ List.mem_map_of_mem PbAttribute.name hb)
          refine ⟨(hfresh b (List.mem_cons_of_mem a hb)).1, ?_⟩
          rw [mem_alKeys_insert]
          rintro (hm | hm)
          · exact (hfresh b (List.mem_cons_of_mem a hb)).2 hm
          · exact hbname hm
        · intro k hk
          rw [mem_alKeys_insert]
          rintro (hm | hm)
          · exact hdisj k hk hm
          · exact (hfresh a (List.mem_cons_self a rest)).1 (hm ▸ hk)

/-- **C4 (amended).**  Successful `ProtocolState::merge`s preserve the
disjointness of the updated/deleted key-sets: whenever both operands
satisfy the invariant (their attribute maps being key-duplicate-free,
as every Rust `HashMap` is), so does the merge result.  Moreover
`ProtocolState::try_from_message` establishes the invariant whenever
the message's attribute names are distinct — but not in general, see
the counterexample. -/
theorem protocolState_disjoint_invariant :
    (∀ s o r : ProtocolState,
      (alKeys o.updated_attributes).Nodup →
      (alKeys o.deleted_attributes).Nodup →
      attrKeysDisjoint s → attrKeysDisjoint o →
      s.merge o = .ok r → attrKeysDisjoint r) ∧
    (∀ (msg : EntityChangesMsg) (tx : Transaction) (s : ProtocolState),
      (msg.attributes.map PbAttribute.name).Nodup →
      ProtocolState.try_from_message msg tx = .ok s → attrKeysDisjoint s) := by
  constructor
  · intro s o r hupd hdel hs ho hr
    rw [protocolState_merge_eq] at hr
    by_cases hcid : s.component_id = o.component_id
    · rw [if_neg (by simp [hcid])] at hr
      cases hr
      intro k hk hk'
      rw [← alLookup_isSome_iff_mem] at hk hk'
      rw [show (protocolStateMergeOk s o).updated_attributes =
          alExtend ((alKeys o.deleted_attributes).foldl alRemove s.updated_attributes)
            o.updated_attributes from rfl,
        alLookup_extend _ _ _ hupd, alLookup_foldl_remove] at hk
      rw [show (protocolStateMergeOk s o).deleted_attributes =
          alExtend ((alKeys o.updated_attributes).foldl alRemove s.deleted_attributes)
            o.deleted_attributes from rfl,
        alLookup_extend _ _ _ hdel, alLookup_foldl_remove] at hk'
      cases hou : alLookup o.updated_attributes k with
      | some v =>
        have hmemo : k ∈ alKeys o.updated_attributes :=
          (alLookup_isSome_iff_mem _ _).mp (by simp [hou])
        have hodel : alLookup o.deleted_attributes k = none := by
          cases hod : alLookup o.deleted_attributes k with
          | none => rfl
          | some w =>
            exact absurd ((alLookup_isSome_iff_mem _ _).mp (by simp [hod]))
              (ho k hmemo)
        rw [hodel, if_pos hmemo] at hk'
        simp [Option.or] at hk'
      | none =>
        rw [hou] at hk
        have hmemo : k ∉ alKeys o.updated_attributes := by
          rw [← alLookup_isSome_iff_mem, hou]; simp
        by_cases hdmem : k ∈ alKeys o.deleted_attributes
        · rw [if_pos hdmem] at hk
          simp [Option.or] at hk
        · rw [if_neg hdmem] at hk
          have hds : alLookup o.deleted_attributes k = none := by
            cases hod : alLookup o.deleted_attributes k with
            | none => rfl
            | some w =>
              exact absurd ((alLookup_isSome_iff_mem _ _).mp (by simp [hod])) hdmem
          rw [hds, if_neg hmemo] at hk'
          simp only [Option.or] at hk hk'
          exact hs k ((alLookup_isSome_iff_mem _ _).mp hk)
            ((alLookup_isSome_iff_mem _ _).mp hk')
    · rw [if_pos hcid] at hr
      exact absurd hr (by simp)
  · intro msg tx s hnames hs
    unfold ProtocolState.try_from_message at hs
    cases hc : classifyAttributes msg.attributes [] [] with
    | none => rw [hc] at hs; exact absurd hs (by simp)
    | some p =>
      obtain ⟨us, ds⟩ := p
      rw [hc] at hs
      have : s.updated_attributes = us ∧ s.deleted_attributes = ds := by
        cases hs; exact ⟨rfl, rfl⟩
      rw [show attrKeysDisjoint s =
          (∀ k ∈ alKeys s.updated_attributes, k ∉ alKeys s.deleted_attributes) from rfl,
        this.1, this.2]
      exact classifyAttributes_disjoint msg.attributes [] [] us ds hnames
        (by intro a _; exact ⟨by simp [alKeys], by simp [alKeys]⟩)
        (by intro k hk; simp [alKeys] at hk) hc

/-- Witness for C4: both parts of the amended theorem applied to
concrete inputs — a merge of two disjoint states, and a message with
distinct attribute names. -/
theorem protocolState_disjoint_invariant_witness :
    attrKeysDisjoint (protocolStateMergeOk
      { component_id := "c", updated_attributes := [("x", [1])],
        deleted_attributes := [("y", [2])], modify_tx := 0 }
      { component_id := "c", updated_attributes := [("y", [3])],
        deleted_attributes := [("x", [4])], modify_tx := 1 }) ∧
    attrKeysDisjoint
      { component_id := "d", updated_attributes := [("a", [1])],
        deleted_attributes := [("b", [2])], modify_tx := 0 } :=
  ⟨protocolState_disjoint_invariant.1
      { component_id := "c", updated_attributes := [("x", [1])],
        deleted_attributes := [("y", [2])], modify_tx := 0 }
      { component_id := "c", updated_attributes := [("y", [3])],
        deleted_attributes := [("x", [4])], modify_tx := 1 }
      _ (by decide) (by decide) (by decide) (by decide) (by decide),
   protocolState_disjoint_invariant.2
      { component_id := "d",
        attributes := [{ name := "a", value := [1], change := .Creation },
                       { name := "b", value := [2], change := .Deletion }] }
      Transaction.default _ (by decide) (by decide)⟩

/-! ## Claims C5 and C6: `BlockEntityChanges::aggregate_updates` -/

/-- A well-formed `BlockEntityChanges` on a block whose hash is nonzero:
a single `ProtocolStatesWithTx` on the block (so the sequence trivially
has pairwise distinct transactions and non-decreasing indices). -/
def c5Input : BlockEntityChanges :=
  { extractor := "test",
    chain := .Ethereum,
    block := { number := 1, hash := 1, parent_hash := 0, chain := .Ethereum, ts := 1000 },
    state_updates :=
      [{ protocol_states :=
           [("State1", { component_id := "State1", updated_attributes := [("reserve", [1])],
                         deleted_attributes := [], modify_tx := 2 })],
         tx := { hash := 2, block_hash := 1, from_ := 0, to_ := none, index := 0 } }],
    new_protocol_components := [] }

set_option maxRecDepth 10000 in
/-- **C5.**  `aggregate_updates` evaluated at `c5Input` — an ordered
sequence of `ProtocolStatesWithTx` on a common block with pairwise
distinct transactions and non-decreasing indices — does **not** succeed:
the fold starts from `ProtocolStatesWithTx::default()`, whose
transaction has block hash zero, so the very first merge returns a
block-hash `MergeError` which the `.unwrap()` turns into a panic.  The
claimed success therefore only holds on blocks whose hash is zero. -/
theorem blockEntityChanges_aggregate_panics_on_nonzero_block :
    c5Input.aggregate_updates = .panics ∧
    entityTryFold ProtocolStatesWithTx.default c5Input.state_updates =
      .error (.MergeError
        ("Can't merge ProtocolStates from different blocks: " ++
          "0x0000000000000000000000000000000000000000000000000000000000000000 != " ++
          "0x0000000000000000000000000000000000000000000000000000000000000001")) := by
  exact ⟨by decide, by decide⟩

/-- A `BlockEntityChanges` (block hash zero, so the default fold base
merges cleanly) in which the second element repeats the first element's
transaction hash: the element-to-element merge fails. -/
def c6Input : BlockEntityChanges :=
  { extractor := "test",
    chain := .Ethereum,
    block := { number := 1, hash := 0, parent_hash := 0, chain := .Ethereum, ts := 1000 },
    state_updates :=
      [{ protocol_states :=
           [("State1", { component_id := "State1", updated_attributes := [("reserve", [1])],
                         deleted_attributes := [], modify_tx := 5 })],
         tx := { hash := 5, block_hash := 0, from_ := 0, to_ := none, index := 1 } },
       { protocol_states :=
           [("State1", { component_id := "State1", updated_attributes := [("reserve", [2])],
                         deleted_attributes := [], modify_tx := 5 })],
         tx := { hash := 5, block_hash := 0, from_ := 0, to_ := none, index := 2 } }],
    new_protocol_components := [] }

set_option maxRecDepth 10000 in
/-- **C6.**  When an inner `ProtocolStatesWithTx::merge` fails during
`aggregate_updates` (here: the second element repeats the first
element's transaction hash, producing a same-transaction `MergeError`),
the method does **not** return the error to the caller: the `.unwrap()`
on the `try_fold` result panics instead. -/
theorem blockEntityChanges_aggregate_panics_on_merge_error :
    entityTryFold ProtocolStatesWithTx.default c6Input.state_updates =
      .error (.MergeError
        ("Can't merge ProtocolStates from the same transaction: " ++
          "0x0000000000000000000000000000000000000000000000000000000000000005")) ∧
    c6Input.aggregate_updates = .panics := by
  exact ⟨by decide, by decide⟩

/-! ## Claim C7: `BlockContractChanges::aggregate_updates` -/

theorem aggregateAccountLoop_spec (l : List AccountUpdateWithTx)
    (acc m : List (Nat × AccountUpdateWithTx))
    (h : aggregateAccountLoop acc l = .ok m) :
    ((alKeys acc).Nodup → (alKeys m).Nodup) ∧
    (∀ k, k ∈ alKeys m ↔
      k ∈ alKeys acc ∨ k ∈ l.map (fun u => u.update.address)) := by
  induction l generalizing acc with
  | nil =>
    simp only [aggregateAccountLoop, Except.ok.injEq] at h
    subst h
    exact ⟨id, by simp⟩
  | cons u rest ih =>
    simp only [aggregateAccountLoop] at h
    cases hl : alLookup acc u.update.address with
    | some e =>
      rw [hl] at h
      replace h : (do
          let mm ← e.merge u
          aggregateAccountLoop (alInsert acc u.update.address mm) rest) = .ok m := h
      cases he : e.merge u with
      | error err =>
        rw [he] at h
        exact absurd h (by simp [Bind.bind, Except.bind])
      | ok mm =>
        rw [he] at h
        have h' : aggregateAccountLoop (alInsert acc u.update.address mm) rest = .ok m := by
          simpa [Bind.bind, Except.bind] using h
        obtain ⟨hnd, hmem⟩ := ih (alInsert acc u.update.address mm) h'
        refine ⟨fun hacc => hnd (alKeys_insert_nodup _ _ _ hacc), ?_⟩
        intro k
        rw [hmem k, mem_alKeys_insert]
        constructor
        · rintro ((hk | hk) | hk)
          · exact Or.inl hk
          · exact Or.inr (by simp [hk])
          · exact Or.inr (by simp [hk])
        · rintro (hk | hk)
          · exact Or.inl (Or.inl hk)
          · rw [List.map_cons, List.mem_cons] at hk
            rcases hk with hk' | hk'
            · exact Or.inl (Or.inr hk')
            · exact Or.inr hk'
    | none =>
      rw [hl] at h
      replace h : aggregateAccountLoop (alInsert acc u.update.address u) rest = .ok m := h
      obtain ⟨hnd, hmem⟩ := ih (alInsert acc u.update.address u) h
      refine ⟨fun hacc => hnd (alKeys_insert_nodup _ _ _ hacc), ?_⟩
      intro k
      rw [hmem k, mem_alKeys_insert]
      constructor
      · rintro ((hk | hk) | hk)
        · exact Or.inl hk
        · exact Or.inr (by simp [hk])
        · exact Or.inr (by simp [hk])
      · rintro (hk | hk)
        · exact Or.inl (Or.inl hk)
        · rw [List.map_cons, List.mem_cons] at hk
          rcases hk with hk' | hk'
          · exact Or.inl (Or.inr hk')
          · exact Or.inr hk'

/-- **C7.**  Whenever `BlockContractChanges::aggregate_updates`
succeeds, its `account_updates` map holds exactly one `AccountUpdate`
per distinct address occurring in `tx_updates` (its key list is
duplicate-free and its keys are exactly the addresses of `tx_updates`),
the block's `protocol_components` are carried through as
`new_protocol_components`, and `deleted_protocol_components` and
`tvl_changes` are empty. -/
theorem blockContractChanges_aggregate_spec (b : BlockContractChanges)
    (res : BlockAccountChanges) (h : b.aggregate_updates = .ok res) :
    (alKeys res.account_updates).Nodup ∧
    (∀ addr, addr ∈ alKeys res.account_updates ↔
      addr ∈ b.tx_updates.map (fun u => u.update.address)) ∧
    res.new_protocol_components = b.protocol_components ∧
    res.deleted_protocol_components = [] ∧
    res.tvl_changes = [] := by
  unfold BlockContractChanges.aggregate_updates at h
  cases hl : aggregateAccountLoop [] b.tx_updates with
  | error e =>
    rw [hl] at h
    exact absurd h (by simp [Bind.bind, Except.bind])
  | ok acc =>
    rw [hl] at h
    have hres : res =
        { extractor := b.extractor, chain := b.chain, block := b.block,
          account_updates := acc.map (fun p => (p.1, p.2.update)),
          new_protocol_components := b.protocol_components,
          deleted_protocol_components := [], tvl_changes := [] } := by
      have := h
      simp only [Bind.bind, Except.bind, Except.ok.injEq] at this
      exact this.symm
    subst hres
    obtain ⟨hnd, hmem⟩ := aggregateAccountLoop_spec b.tx_updates [] acc hl
    have hkeys : alKeys (acc.map (fun p => (p.1, p.2.update))) = alKeys acc := by
      unfold alKeys
      rw [List.map_map]
      rfl
    refine ⟨?_, ?_, rfl, rfl, rfl⟩
    · rw [hkeys]
      exact hnd (by simp [alKeys])
    · intro addr
      rw [hkeys, hmem addr]
      simp [alKeys]

/-- Scenario-S1-style input for C7: two mergeable updates on one
address and a third update on another address. -/
def c7Input : BlockContractChanges :=
  { extractor := "test",
    chain := .Ethereum,
    block := { number := 1, hash := 7, parent_hash := 0, chain := .Ethereum, ts := 1000 },
    tx_updates :=
      [{ update := { address := 1, chain := .Ethereum, slots := [], balance := some 10000,
                     code := none, change := .Update },
         tx := { hash := 10, block_hash := 7, from_ := 0, to_ := none, index := 1 } },
       { update := { address := 1, chain := .Ethereum, slots := [(0, 1), (1, 2)],
                     balance := none, code := none, change := .Update },
         tx := { hash := 11, block_hash := 7, from_ := 0, to_ := none, index := 2 } },
       { update := { address := 2, chain := .Ethereum, slots := [], balance := none,
                     code := none, change := .Update },
         tx := { hash := 11, block_hash := 7, from_ := 0, to_ := none, index := 2 } }],
    protocol_components := [],
    tvl_changes := [] }

/-- The aggregation result of `c7Input`: one entry per address, the
first address's slots merged and its balance retained. -/
def c7Result : BlockAccountChanges :=
  { extractor := "test",
    chain := .Ethereum,
    block := { number := 1, hash := 7, parent_hash := 0, chain := .Ethereum, ts := 1000 },
    account_updates :=
      [(1, { address := 1, chain := .Ethereum, slots := [(0, 1), (1, 2)],
             balance := some 10000, code := none, change := .Update }),
       (2, { address := 2, chain := .Ethereum, slots := [], balance := none,
             code := none, change := .Update })],
    new_protocol_components := [],
    deleted_protocol_components := [],
    tvl_changes := [] }

set_option maxRecDepth 10000 in
/-- Witness for C7: the theorem applied to `c7Input`, whose aggregation
evaluates to `c7Result`. -/
theorem blockContractChanges_aggregate_spec_witness :
    c7Input.aggregate_updates = .ok c7Result ∧
    ((alKeys c7Result.account_updates).Nodup ∧
      (∀ addr, addr ∈ alKeys c7Result.account_updates ↔
        addr ∈ c7Input.tx_updates.map (fun u => u.update.address)) ∧
      c7Result.new_protocol_components = c7Input.protocol_components ∧
      c7Result.deleted_protocol_components = [] ∧
      c7Result.tvl_changes = []) :=
  ⟨by decide, blockContractChanges_aggregate_spec c7Input c7Result (by decide)⟩

/-! ## Claim C8: associativity of `AccountUpdateWithTx::merge` -/

theorem accountMerge_ok_eq (a b : AccountUpdateWithTx)
    (haddr : a.update.address = b.update.address)
    (hblock : a.tx.block_hash = b.tx.block_hash)
    (hhash : a.tx.hash ≠ b.tx.hash)
    (hidx : a.tx.index ≤ b.tx.index) :
    a.merge b = .ok
      { update := { a.update with
                    slots := alExtend a.update.slots b.update.slots,
                    balance := b.update.balance.or a.update.balance,
                    code := b.update.code.or a.update.code },
        tx := b.tx } := by
  unfold AccountUpdateWithTx.merge
  rw [if_neg (by simp [hblock]), if_neg hhash, if_neg (by simpa using hidx)]
  unfold AccountUpdate.merge
  rw [if_neg (by simp [haddr])]
  rfl

/-- **C8.**  For three `AccountUpdateWithTx` on a common address and
common block hash, with strictly increasing transaction indices and
pairwise distinct transaction hashes, fold-merging is associative: both
`merge(merge(a,b),c)` and `merge(a,merge(b,c))` succeed and produce the
same value (equality of the slot maps stated pointwise, matching
`HashMap` equality; the slot maps of the later operands are
key-duplicate-free, as every Rust `HashMap` is). -/
theorem accountUpdateWithTx_merge_assoc (a b c : AccountUpdateWithTx)
    (haddr1 : a.update.address = b.update.address)
    (haddr2 : b.update.address = c.update.address)
    (hb1 : a.tx.block_hash = b.tx.block_hash)
    (hb2 : b.tx.block_hash = c.tx.block_hash)
    (hh1 : a.tx.hash ≠ b.tx.hash)
    (hh2 : b.tx.hash ≠ c.tx.hash)
    (hh3 : a.tx.hash ≠ c.tx.hash)
    (hi1 : a.tx.index < b.tx.index)
    (hi2 : b.tx.index < c.tx.index)
    (hnb : (alKeys b.update.slots).Nodup)
    (hnc : (alKeys c.update.slots).Nodup) :
    ∃ ab bc r r', a.merge b = .ok ab ∧ b.merge c = .ok bc ∧
      ab.merge c = .ok r ∧ a.merge bc = .ok r' ∧
      r.tx = r'.tx ∧
      r.update.address = r'.update.address ∧
      r.update.chain = r'.update.chain ∧
      r.update.balance = r'.update.balance ∧
      r.update.code = r'.update.code ∧
      r.update.change = r'.update.change ∧
      (∀ k, alLookup r.update.slots k = alLookup r'.update.slots k) := by
  have hab := accountMerge_ok_eq a b haddr1 hb1 hh1 hi1.le
  have hbc := accountMerge_ok_eq b c haddr2 hb2 hh2 hi2.le
  refine ⟨_, _, _, _, hab, hbc,
    accountMerge_ok_eq _ c (haddr1.trans haddr2) hb2 hh2 hi2.le,
    accountMerge_ok_eq a _ haddr1 (hb1.trans hb2) hh3 (hi1.trans hi2).le,
    rfl, rfl, rfl, Option.or_assoc.symm, Option.or_assoc.symm, rfl, ?_⟩
  intro k
  show alLookup (alExtend (alExtend a.update.slots b.update.slots) c.update.slots) k =
    alLookup (alExtend a.update.slots (alExtend b.update.slots c.update.slots)) k
  rw [alLookup_extend _ _ _ hnc, alLookup_extend _ _ _ hnb,
    alLookup_extend _ _ _ (alKeys_extend_nodup b.update.slots c.update.slots hnb),
    alLookup_extend _ _ _ hnc, Option.or_assoc]

/-- Witness for C8: the associativity theorem applied to three concrete
updates with indices 1 < 2 < 3 touching overlapping slots. -/
theorem accountUpdateWithTx_merge_assoc_witness :
    ∃ ab bc r r',
      ({ update := { address := 9, chain := .Ethereum, slots := [(0, 1)],
                     balance := some 5, code := none, change := .Creation },
         tx := { hash := 1, block_hash := 4, from_ := 0, to_ := none, index := 1 } }
          : AccountUpdateWithTx).merge
        { update := { address := 9, chain := .Ethereum, slots := [(0, 2), (1, 7)],
                      balance := none, code := none, change := .Update },
          tx := { hash := 2, block_hash := 4, from_ := 0, to_ := none, index := 2 } } = .ok ab ∧
      ({ update := { address := 9, chain := .Ethereum, slots := [(0, 2), (1, 7)],
                     balance := none, code := none, change := .Update },
         tx := { hash := 2, block_hash := 4, from_ := 0, to_ := none, index := 2 } }
          : AccountUpdateWithTx).merge
        { update := { address := 9, chain := .Ethereum, slots := [(1, 9)],
                      balance := some 6, code := some [1], change := .Update },
          tx := { hash := 3, block_hash := 4, from_ := 0, to_ := none, index := 3 } } = .ok bc ∧
      ab.merge
        { update := { address := 9, chain := .Ethereum, slots := [(1, 9)],
                      balance := some 6, code := some [1], change := .Update },
          tx := { hash := 3, block_hash := 4, from_ := 0, to_ := none, index := 3 } } = .ok r ∧
      ({ update := { address := 9, chain := .Ethereum, slots := [(0, 1)],
                     balance := some 5, code := none, change := .Creation },
         tx := { hash := 1, block_hash := 4, from_ := 0, to_ := none, index := 1 } }
          : AccountUpdateWithTx).merge bc = .ok r' ∧
      r.tx = r'.tx ∧
      r.update.address = r'.update.address ∧
      r.update.chain = r'.update.chain ∧
      r.update.balance = r'.update.balance ∧
      r.update.code = r'.update.code ∧
      r.update.change = r'.update.change ∧
      (∀ k, alLookup r.update.slots k = alLookup r'.update.slots k) :=
  accountUpdateWithTx_merge_assoc _ _ _ rfl rfl rfl rfl (by decide) (by decide) (by decide)
    (by decide) (by decide) (by decide) (by decide)

/-! ## Claim C9: `TvlChange::try_from_message` -/

set_option maxRecDepth 10000 in
/-- **C9.**  `TvlChange::try_from_message` is *not* total on malformed
balances: a `BalanceChange` whose `balance` field is 7 bytes long makes
`msg.balance.try_into().unwrap()` panic instead of returning
`Err(DecodeError)`.  A token longer than 20 bytes does produce
`Err(DecodeError)`, and on a well-formed message (scenario S6: 20-byte
token, the 8 little-endian bytes of the `f64` `3000.0`, component id
`"DIANA-THALES"`) the result carries the bit pattern of `3000.0`
(`0x40A7700000000000`), the enclosing transaction's hash, and the
decoded component id. -/
theorem tvlChange_tryFromMessage_panics_on_short_balance :
    TvlChange.try_from_message
      { token := List.replicate 20 3, balance := [0, 0, 0, 0, 0, 0, 0],
        component_id := [65] }
      Transaction.default = .panics ∧
    TvlChange.try_from_message
      { token := List.replicate 21 3, balance := [0, 0, 0, 0, 0, 0, 0],
        component_id := [65] }
      Transaction.default =
      .err (.DecodeError "Tried to decode an address from bytes of length 21") ∧
    TvlChange.try_from_message
      { token := List.replicate 20 3,
        balance := [0, 0, 0, 0, 0, 0x70, 0xA7, 0x40],
        component_id := [68, 73, 65, 78, 65, 45, 84, 72, 65, 76, 69, 83] }
      { hash := 9, block_hash := 0, from_ := 0, to_ := none, index := 0 } =
      .ok { token := List.replicate 20 3, new_balance := 0x40A7700000000000,
            modify_tx := 9, component_id := "DIANA-THALES" } := by
  exact ⟨by decide, by decide, by decide⟩

/-! ## Claim C10: the dispatcher's routing guarantees -/

/-- Unfolding equation of `mapPoolCalls` on a non-empty call list. -/
theorem mapPoolCalls_cons {γ : Type} (env : AmbientEnv γ) (call : CallMsg)
    (rest : List CallMsg) (pcs : List γ) (bds : List BalanceDelta) :
    mapPoolCalls env (call :: rest) pcs bds =
      if call.input.length < 4 then mapPoolCalls env rest pcs bds
      else if call.address.length ≠ 20 then .panics
      else
        match (if call.address = env.ambientContract ∧
                  call.input.take 4 = env.userCmdSig
               then env.decode_pool_init call else Except.ok none) with
        | .error e => .err e
        | .ok initOpt =>
          match dispatchTvl env call (call.input.take 4) with
          | .error e => .err e
          | .ok none =>
            mapPoolCalls env rest
              (match initOpt with | some pc => pcs ++ [pc] | none => pcs) bds
          | .ok (some (ph, bf, qf)) =>
            mapPoolCalls env rest
              (match initOpt with | some pc => pcs ++ [pc] | none => pcs)
              (bds ++ [{ pool_hash := ph,
                         base_token_delta := env.from_u256_to_vec bf,
                         quote_token_delta := env.from_u256_to_vec qf,
                         ordinal := call.index }]) := rfl

/-- Dropping the calls with fewer than 4 input bytes does not change the
dispatcher's call-loop outcome: such calls are skipped. -/
theorem mapPoolCalls_filter_short {γ : Type} (env : AmbientEnv γ) (calls : List CallMsg)
    (pcs : List γ) (bds : List BalanceDelta) :
    mapPoolCalls env (calls.filter (fun c => 4 ≤ c.input.length)) pcs bds =
      mapPoolCalls env calls pcs bds := by
  induction calls generalizing pcs bds with
  | nil => rfl
  | cons call rest ih =>
    by_cases hshort : call.input.length < 4
    · have hf : (call :: rest).filter (fun c => 4 ≤ c.input.length) =
          rest.filter (fun c => 4 ≤ c.input.length) := by
        simp [List.filter_cons, Nat.not_le.mpr hshort]
      rw [hf, ih, mapPoolCalls_cons, if_pos hshort]
    · have hf : (call :: rest).filter (fun c => 4 ≤ c.input.length) =
          call :: rest.filter (fun c => 4 ≤ c.input.length) := by
        simp [List.filter_cons, Nat.not_lt.mp hshort]
      rw [hf, mapPoolCalls_cons, mapPoolCalls_cons, if_neg hshort, if_neg hshort]
      by_cases hlen : call.address.length ≠ 20
      · rw [if_pos hlen, if_pos hlen]
      · rw [if_neg hlen, if_neg hlen]
        cases hinit : (if call.address = env.ambientContract ∧
            call.input.take 4 = env.userCmdSig
          then env.decode_pool_init call else Except.ok none) with
        | error e => rfl
        | ok initOpt =>
          cases hdisp : dispatchTvl env call (call.input.take 4) with
          | error e => rfl
          | ok flow =>
            cases flow with
            | none => exact ih _ _
            | some t =>
              obtain ⟨ph, bf, qf⟩ := t
              exact ih _ _

/-- Provenance of the call loop's outputs: every emitted delta's ordinal
is the index of a processed call (one with at least 4 input bytes), and
every pushed component comes from `decode_pool_init` returning `Some`
for a `USER_CMD` call on the main contract. -/
theorem mapPoolCalls_provenance {γ : Type} (env : AmbientEnv γ) (calls : List CallMsg)
    (pcs : List γ) (bds : List BalanceDelta) (pcs' : List γ) (bds' : List BalanceDelta)
    (h : mapPoolCalls env calls pcs bds = .ok (pcs', bds')) :
    (∀ d ∈ bds', d ∈ bds ∨ ∃ call ∈ calls, 4 ≤ call.input.length ∧
      d.ordinal = call.index) ∧
    (∀ pc ∈ pcs', pc ∈ pcs ∨ ∃ call ∈ calls, 4 ≤ call.input.length ∧
      call.address = env.ambientContract ∧ call.input.take 4 = env.userCmdSig ∧
      env.decode_pool_init call = .ok (some pc)) := by
  induction calls generalizing pcs bds with
  | nil =>
    simp only [mapPoolCalls, RunRes.ok.injEq, Prod.mk.injEq] at h
    rw [← h.1, ← h.2]
    exact ⟨fun d hd => Or.inl hd, fun pc hpc => Or.inl hpc⟩
  | cons call rest ih =>
    rw [mapPoolCalls_cons] at h
    by_cases hshort : call.input.length < 4
    · rw [if_pos hshort] at h
      obtain ⟨hd, hp⟩ := ih pcs bds h
      constructor
      · intro d hdm
        rcases hd d hdm with hk | ⟨c, hc, hc4, hco⟩
        · exact Or.inl hk
        · exact Or.inr ⟨c, List.mem_cons_of_mem call hc, hc4, hco⟩
      · intro pc hpm
        rcases hp pc hpm with hk | ⟨c, hc, hc4, hca, hcs, hcd⟩
        · exact Or.inl hk
        · exact Or.inr ⟨c, List.mem_cons_of_mem call hc, hc4, hca, hcs, hcd⟩
    · rw [if_neg hshort] at h
      by_cases hlen : call.address.length ≠ 20
      · rw [if_pos hlen] at h
        exact absurd h (by simp)
      · rw [if_neg hlen] at h
        have h4 : 4 ≤ call.input.length := Nat.not_lt.mp hshort
        cases hinit : (if call.address = env.ambientContract ∧
            call.input.take 4 = env.userCmdSig
          then env.decode_pool_init call else Except.ok none) with
        | error e =>
          rw [hinit] at h
          exact absurd h (by simp)
        | ok initOpt =>
          rw [hinit] at h
          have hinitProv : ∀ pc, initOpt = some pc →
              call.address = env.ambientContract ∧ call.input.take 4 = env.userCmdSig ∧
              env.decode_pool_init call = .ok (some pc) := by
            intro pc hpc
            subst hpc
            by_cases hcond : call.address = env.ambientContract ∧
                call.input.take 4 = env.userCmdSig
            · rw [if_pos hcond] at hinit
              exact ⟨hcond.1, hcond.2, hinit⟩
            · rw [if_neg hcond] at hinit
              exact absurd hinit (by simp)
          have hnext : ∀ pcs2 bds2,
              mapPoolCalls env rest pcs2 bds2 = .ok (pcs', bds') →
              (∀ pc2 ∈ pcs2, pc2 ∈ pcs ∨
                (call.address = env.ambientContract ∧
                  call.input.take 4 = env.userCmdSig ∧
                  env.decode_pool_init call = .ok (some pc2))) →
              (∀ d2 ∈ bds2, d2 ∈ bds ∨ d2.ordinal = call.index) →
              (∀ d ∈ bds', d ∈ bds ∨ ∃ c ∈ call :: rest, 4 ≤ c.input.length ∧
                d.ordinal = c.index) ∧
              (∀ pc ∈ pcs', pc ∈ pcs ∨ ∃ c ∈ call :: rest, 4 ≤ c.input.length ∧
                c.address = env.ambientContract ∧ c.input.take 4 = env.userCmdSig ∧
                env.decode_pool_init c = .ok (some pc)) := by
            intro pcs2 bds2 h2 hpcs2 hbds2
            obtain ⟨hd, hp⟩ := ih pcs2 bds2 h2
            constructor
            · intro d hdm
              rcases hd d hdm with hk | ⟨c, hc, hc4, hco⟩
              · rcases hbds2 d hk with hk' | hk'
                · exact Or.inl hk'
                · exact Or.inr ⟨call, List.mem_cons_self call rest, h4, hk'⟩
              · exact Or.inr ⟨c, List.mem_cons_of_mem call hc, hc4, hco⟩
            · intro pc hpm
              rcases hp pc hpm with hk | ⟨c, hc, hc4, hca, hcs, hcd⟩
              · rcases hpcs2 pc hk with hk' | hk'
                · exact Or.inl hk'
                · exact Or.inr ⟨call, List.mem_cons_self call rest, h4, hk'⟩
              · exact Or.inr ⟨c, List.mem_cons_of_mem call hc, hc4, hca, hcs, hcd⟩
          cases hdisp : dispatchTvl env call (call.input.take 4) with
          | error e =>
            rw [hdisp] at h
            exact absurd h (by simp)
          | ok flow =>
            rw [hdisp] at h
            cases flow with
            | none =>
              refine hnext _ _ h ?_ (fun d2 hd2 => Or.inl hd2)
              intro pc2 hpc2
              cases initOpt with
              | none => exact Or.inl hpc2
              | some pc0 =>
                rcases List.mem_append.mp hpc2 with hk | hk
                · exact Or.inl hk
                · have : pc2 = pc0 := by simpa using hk
                  exact Or.inr (this ▸ hinitProv pc0 rfl)
            | some t =>
              obtain ⟨ph, bf, qf⟩ := t
              refine hnext _ _ h ?_ ?_
              · intro pc2 hpc2
                cases initOpt with
                | none => exact Or.inl hpc2
                | some pc0 =>
                  rcases List.mem_append.mp hpc2 with hk | hk
                  · exact Or.inl hk
                  · have : pc2 = pc0 := by simpa using hk
                    exact Or.inr (this ▸ hinitProv pc0 rfl)
              · intro d2 hd2
                rcases List.mem_append.mp hd2 with hk | hk
                · exact Or.inl hk
                · have : d2 = { pool_hash := ph,
                                base_token_delta := env.from_u256_to_vec bf,
                                quote_token_delta := env.from_u256_to_vec qf,
                                ordinal := call.index } := by simpa using hk
                  exact Or.inr (by rw [this])

/-- Lifting of `mapPoolCalls_provenance` to the transaction loop: every
output is traceable to a non-reverted call of some transaction. -/
theorem mapPoolTxs_provenance {γ : Type} (env : AmbientEnv γ) (txs : List TraceTx)
    (pcs : List γ) (bds : List BalanceDelta) (pcs' : List γ) (bds' : List BalanceDelta)
    (h : mapPoolTxs env txs pcs bds = .ok (pcs', bds')) :
    (∀ d ∈ bds', d ∈ bds ∨ ∃ tx ∈ txs, ∃ call ∈ tx.calls, ¬ call.state_reverted ∧
      4 ≤ call.input.length ∧ d.ordinal = call.index) ∧
    (∀ pc ∈ pcs', pc ∈ pcs ∨ ∃ tx ∈ txs, ∃ call ∈ tx.calls, ¬ call.state_reverted ∧
      4 ≤ call.input.length ∧ call.address = env.ambientContract ∧
      call.input.take 4 = env.userCmdSig ∧
      env.decode_pool_init call = .ok (some pc)) := by
  induction txs generalizing pcs bds with
  | nil =>
    simp only [mapPoolTxs, RunRes.ok.injEq, Prod.mk.injEq] at h
    rw [← h.1, ← h.2]
    exact ⟨fun d hd => Or.inl hd, fun pc hpc => Or.inl hpc⟩
  | cons tx rest ih =>
    have hstep : mapPoolTxs env (tx :: rest) pcs bds =
        match mapPoolCalls env (tx.calls.filter (fun c => !c.state_reverted)) pcs bds with
        | .panics => .panics
        | .err e => .err e
        | .ok (pcs2, bds2) => mapPoolTxs env rest pcs2 bds2 := rfl
    rw [hstep] at h
    cases hc : mapPoolCalls env (tx.calls.filter (fun c => !c.state_reverted)) pcs bds with
    | panics => rw [hc] at h; exact absurd h (by simp)
    | err e => rw [hc] at h; exact absurd h (by simp)
    | ok p =>
      obtain ⟨pcs2, bds2⟩ := p
      rw [hc] at h
      replace h : mapPoolTxs env rest pcs2 bds2 = .ok (pcs', bds') := h
      obtain ⟨hd2, hp2⟩ := ih pcs2 bds2 h
      obtain ⟨hd1, hp1⟩ := mapPoolCalls_provenance env _ pcs bds pcs2 bds2 hc
      constructor
      · intro d hdm
        rcases hd2 d hdm with hk | ⟨t, ht, c, hcmem, hrev, hc4, hco⟩
        · rcases hd1 d hk with hk' | ⟨c, hcmem, hc4, hco⟩
          · exact Or.inl hk'
          · obtain ⟨hcm, hcrev⟩ := List.mem_filter.mp hcmem
            exact Or.inr ⟨tx, List.mem_cons_self tx rest, c, hcm,
              by simpa using hcrev, hc4, hco⟩
        · exact Or.inr ⟨t, List.mem_cons_of_mem tx ht, c, hcmem, hrev, hc4, hco⟩
      · intro pc hpm
        rcases hp2 pc hpm with hk | ⟨t, ht, c, hcmem, hrev, hc4, hca, hcs, hcd⟩
        · rcases hp1 pc hk with hk' | ⟨c, hcmem, hc4, hca, hcs, hcd⟩
          · exact Or.inl hk'
          · obtain ⟨hcm, hcrev⟩ := List.mem_filter.mp hcmem
            exact Or.inr ⟨tx, List.mem_cons_self tx rest, c, hcm,
              by simpa using hcrev, hc4, hca, hcs, hcd⟩
        · exact Or.inr ⟨t, List.mem_cons_of_mem tx ht, c, hcmem, hrev, hc4, hca, hcs, hcd⟩

/-- Dropping reverted calls, or calls with fewer than 4 input bytes,
from every transaction leaves the transaction loop's outcome
unchanged. -/
theorem mapPoolTxs_filters {γ : Type} (env : AmbientEnv γ) (txs : List TraceTx)
    (pcs : List γ) (bds : List BalanceDelta) :
    (mapPoolTxs env
        (txs.map (fun tx => { calls := tx.calls.filter (fun c => !c.state_reverted) }))
        pcs bds = mapPoolTxs env txs pcs bds) ∧
    (mapPoolTxs env
        (txs.map (fun tx => { calls := tx.calls.filter (fun c => 4 ≤ c.input.length) }))
        pcs bds = mapPoolTxs env txs pcs bds) := by
  induction txs generalizing pcs bds with
  | nil => exact ⟨rfl, rfl⟩
  | cons tx rest ih =>
    constructor
    · show (match mapPoolCalls env
          ((tx.calls.filter (fun c => !c.state_reverted)).filter
            (fun c => !c.state_reverted)) pcs bds with
        | .panics => (.panics : RunRes String (List γ × List BalanceDelta))
        | .err e => .err e
        | .ok (pcs2, bds2) =>
            mapPoolTxs env
              (rest.map (fun tx : TraceTx =>
                ({ calls := tx.calls.filter (fun c => !c.state_reverted) } : TraceTx)))
              pcs2 bds2) = _
      have hff : (tx.calls.filter (fun c => !c.state_reverted)).filter
          (fun c => !c.state_reverted) = tx.calls.filter (fun c => !c.state_reverted) := by
        rw [List.filter_filter]
        congr 1
        funext c
        cases c.state_reverted <;> rfl
      rw [hff]
      have hstep : mapPoolTxs env (tx :: rest) pcs bds =
          match mapPoolCalls env (tx.calls.filter (fun c => !c.state_reverted)) pcs bds with
          | .panics => .panics
          | .err e => .err e
          | .ok (pcs2, bds2) => mapPoolTxs env rest pcs2 bds2 := rfl
      rw [hstep]
      cases hc : mapPoolCalls env (tx.calls.filter (fun c => !c.state_reverted)) pcs bds with
      | panics => rfl
      | err e => rfl
      | ok p =>
        obtain ⟨pcs2, bds2⟩ := p
        exact (ih pcs2 bds2).1
    · show (match mapPoolCalls env
          ((tx.calls.filter (fun c => 4 ≤ c.input.length)).filter
            (fun c => !c.state_reverted)) pcs bds with
        | .panics => (.panics : RunRes String (List γ × List BalanceDelta))
        | .err e => .err e
        | .ok (pcs2, bds2) =>
            mapPoolTxs env
              (rest.map (fun tx : TraceTx =>
                ({ calls := tx.calls.filter (fun c => 4 ≤ c.input.length) } : TraceTx)))
              pcs2 bds2) = _
      have hcomm : (tx.calls.filter (fun c => 4 ≤ c.input.length)).filter
          (fun c => !c.state_reverted) =
          (tx.calls.filter (fun c => !c.state_reverted)).filter
            (fun c => 4 ≤ c.input.length) := by
        rw [List.filter_filter, List.filter_filter]
        congr 1
        funext c
        cases c.state_reverted <;> by_cases h4 : 4 ≤ c.input.length <;> simp [h4]
      rw [hcomm, mapPoolCalls_filter_short]
      have hstep : mapPoolTxs env (tx :: rest) pcs bds =
          match mapPoolCalls env (tx.calls.filter (fun c => !c.state_reverted)) pcs bds with
          | .panics => .panics
          | .err e => .err e
          | .ok (pcs2, bds2) => mapPoolTxs env rest pcs2 bds2 := rfl
      rw [hstep]
      cases hc : mapPoolCalls env (tx.calls.filter (fun c => !c.state_reverted)) pcs bds with
      | panics => rfl
      | err e => rfl
      | ok p =>
        obtain ⟨pcs2, bds2⟩ := p
        exact (ih pcs2 bds2).2

/-- **C10.**  For every decoder environment and every block: (1) the
dispatcher's outcome is unchanged when the reverted calls are removed
(reverted calls are never decoded); (2) the outcome is unchanged when
the calls with fewer than 4 input bytes are removed (such calls are
skipped); (3) on success, every emitted `BalanceDelta` carries as
`ordinal` the block-wide `index` of an originating non-reverted call
with at least 4 input bytes; and (4) on success, every pushed
`ProtocolComponent` stems from a non-reverted call on the main contract
whose selector is `USER_CMD` and for which the pool-init decoder
returned `Some`. -/
theorem map_pool_changes_routing {γ : Type} (env : AmbientEnv γ) (block : TraceBlock) :
    (map_pool_changes env
        { transactions := block.transactions.map (fun tx =>
            { calls := tx.calls.filter (fun c => !c.state_reverted) }) } =
      map_pool_changes env block) ∧
    (map_pool_changes env
        { transactions := block.transactions.map (fun tx =>
            { calls := tx.calls.filter (fun c => 4 ≤ c.input.length) }) } =
      map_pool_changes env block) ∧
    (∀ out, map_pool_changes env block = .ok out →
      ∀ d ∈ out.balance_deltas, ∃ tx ∈ block.transactions, ∃ call ∈ tx.calls,
        ¬ call.state_reverted ∧ 4 ≤ call.input.length ∧ d.ordinal = call.index) ∧
    (∀ out, map_pool_changes env block = .ok out →
      ∀ pc ∈ out.protocol_components, ∃ tx ∈ block.transactions, ∃ call ∈ tx.calls,
        ¬ call.state_reverted ∧ 4 ≤ call.input.length ∧
        call.address = env.ambientContract ∧ call.input.take 4 = env.userCmdSig ∧
        env.decode_pool_init call = .ok (some pc)) := by
  refine ⟨?_, ?_, ?_, ?_⟩
  · show (match mapPoolTxs env (block.transactions.map (fun tx : TraceTx =>
        ({ calls := tx.calls.filter (fun c => !c.state_reverted) } : TraceTx))) [] [] with
      | .panics => (.panics : RunRes String (BlockPoolChanges γ))
      | .err e => .err e
      | .ok (pcs, bds) => .ok { protocol_components := pcs, balance_deltas := bds }) = _
    rw [(mapPoolTxs_filters env block.transactions [] []).1]
    rfl
  · show (match mapPoolTxs env (block.transactions.map (fun tx : TraceTx =>
        ({ calls := tx.calls.filter (fun c => 4 ≤ c.input.length) } : TraceTx))) [] [] with
      | .panics => (.panics : RunRes String (BlockPoolChanges γ))
      | .err e => .err e
      | .ok (pcs, bds) => .ok { protocol_components := pcs, balance_deltas := bds }) = _
    rw [(mapPoolTxs_filters env block.transactions [] []).2]
    rfl
  · intro out hout d hd
    unfold map_pool_changes at hout
    cases hm : mapPoolTxs env block.transactions [] [] with
    | panics => rw [hm] at hout; exact absurd hout (by simp)
    | err e => rw [hm] at hout; exact absurd hout (by simp)
    | ok p =>
      obtain ⟨pcs, bds⟩ := p
      rw [hm] at hout
      replace hout : RunRes.ok { protocol_components := pcs, balance_deltas := bds } =
          RunRes.ok (ε := String) out := hout
      have hbd : d ∈ bds := by
        cases hout
        simpa using hd
      rcases (mapPoolTxs_provenance env block.transactions [] [] pcs bds hm).1 d hbd with
        hk | hk
      · exact absurd hk (by simp)
      · exact hk
  · intro out hout pc hpc
    unfold map_pool_changes at hout
    cases hm : mapPoolTxs env block.transactions [] [] with
    | panics => rw [hm] at hout; exact absurd hout (by simp)
    | err e => rw [hm] at hout; exact absurd hout (by simp)
    | ok p =>
      obtain ⟨pcs, bds⟩ := p
      rw [hm] at hout
      replace hout : RunRes.ok { protocol_components := pcs, balance_deltas := bds } =
          RunRes.ok (ε := String) out := hout
      have hbp : pc ∈ pcs := by
        cases hout
        simpa using hpc
      rcases (mapPoolTxs_provenance env block.transactions [] [] pcs bds hm).2 pc hbp with
        hk | hk
      · exact absurd hk (by simp)
      · exact hk

/-- A concrete dispatcher environment: distinct contract addresses and
selectors, a pool-init decoder that always detects component `42`, flow
decoders with fixed outputs. -/
def c10Env : AmbientEnv Nat :=
  { ambientContract := List.replicate 20 1,
    hotproxyContract := List.replicate 20 2,
    micropathsContract := List.replicate 20 3,
    warmpathContract := List.replicate 20 4,
    knockoutContract := List.replicate 20 5,
    swapSig := [0, 0, 0, 1],
    userCmdSig := [0, 0, 0, 2],
    userCmdHotproxySig := [0, 0, 0, 3],
    sweepSwapSig := [0, 0, 0, 4],
    mintRangeSig := [0, 0, 0, 5],
    mintAmbientSig := [0, 0, 0, 6],
    burnRangeSig := [0, 0, 0, 7],
    burnAmbientSig := [0, 0, 0, 8],
    userCmdWarmpathSig := [0, 0, 0, 9],
    userCmdKnockoutSig := [0, 0, 0, 10],
    decode_pool_init := fun _ => .ok (some 42),
    decode_direct_swap_call := fun _ => .ok ([9], 1, -1),
    decode_direct_swap_hotproxy_call := fun _ => .ok ([9], 1, -1),
    decode_sweep_swap_call := fun _ => .ok ([9], 1, -1),
    decode_mint_range_call := fun _ => .ok ([9], 1, -1),
    decode_mint_ambient_call := fun _ => .ok ([9], 1, -1),
    decode_burn_range_call := fun _ => .ok ([9], 1, -1),
    decode_burn_ambient_call := fun _ => .ok ([9], 1, -1),
    decode_knockout_call := fun _ => .ok ([9], 1, -1),
    decode_warm_path_user_cmd_call := fun _ => .ok none,
    from_u256_to_vec := fun _ => [0] }

/-- A one-transaction block whose single non-reverted call is a
`USER_CMD` call on the main contract. -/
def c10Block : TraceBlock :=
  { transactions :=
      [{ calls := [{ address := List.replicate 20 1, input := [0, 0, 0, 2, 7],
                     state_reverted := false, index := 3 }] }] }

/-- Witness for C10: the routing theorem applied to `c10Env`/`c10Block`,
on which the dispatcher emits exactly the detected component `42`. -/
theorem map_pool_changes_routing_witness :
    map_pool_changes c10Env c10Block =
      .ok { protocol_components := [42], balance_deltas := [] } ∧
    (∃ tx ∈ c10Block.transactions, ∃ call ∈ tx.calls,
      ¬ call.state_reverted ∧ 4 ≤ call.input.length ∧
      call.address = c10Env.ambientContract ∧
      call.input.take 4 = c10Env.userCmdSig ∧
      c10Env.decode_pool_init call = .ok (some 42)) :=
  ⟨rfl, (map_pool_changes_routing c10Env c10Block).2.2.2
    { protocol_components := [42], balance_deltas := [] } rfl 42 (by decide)⟩
